import Mathlib

/-!
# mailwatcher: address extraction and the sync loop

A shallow embedding of `mailwatcher.go`:

* `extractEmail` (the regular expression of line 17 and `FindString`),
* the body of the `for` loop of `main` (lines 119-171) as `processMessage`,
  with the index table and the file system as explicit state.

Modelling choices:

* `regexp.FindString` is the leftmost-first match: start positions are
  scanned from the left, and at a position each greedy repetition takes as
  many characters as it can and gives them back one at a time.
* The file system is a list of regular files keyed by their resolved path
  (`resolvePath`: empty components and `.` are skipped, `..` steps to the
  parent), so that an attachment filename with `/` or `..` can name a body
  file or the database file `<basedir>/index.sqlite.db`; directories and
  symbolic links are not represented.
* The rows of `mailidx` live in the database file: a write over that file
  replaces them by what the database engine reads in the written bytes
  (`Faults.parseDb`), or leaves a file the engine rejects.
* Every way an operation can fail that the state does not show is a
  parameter (`Faults`); the program's reaction to a failure (checked and
  fatal, or discarded) is the one of the source.
* Executions are recorded as a list of `Event`s next to the state, so that
  the order and number of operations can be stated.
-/

namespace Mailwatcher

/-! ## Regular expression of `extractEmail` -/

/-- Character class `[a-zA-Z]`. -/
def isLetter (c : Char) : Bool :=
  (decide ('a' ≤ c) && decide (c ≤ 'z')) || (decide ('A' ≤ c) && decide (c ≤ 'Z'))

/-- Character class `[0-9]`. -/
def isDigit (c : Char) : Bool :=
  decide ('0' ≤ c) && decide (c ≤ '9')

/-- Character class `[a-zA-Z0-9._%+\-]` (local part). -/
def isLocalChar (c : Char) : Bool :=
  isLetter c || isDigit c || c == '.' || c == '_' || c == '%' || c == '+' || c == '-'

/-- Character class `[a-zA-Z0-9.\-]` (domain). -/
def isDomainChar (c : Char) : Bool :=
  isLetter c || isDigit c || c == '.' || c == '-'

/-- Literal `@`. -/
def isAt (c : Char) : Bool := c == '@'

/-- Literal `\.`. -/
def isDot (c : Char) : Bool := c == '.'

/-- One factor of the pattern: a greedy repetition `cls{min,max}` of a
character class (`max = none` is unbounded, so `x+` is `min = 1`,
`max = none`, and a single character is `min = max = 1`). -/
structure Rep where
  cls : Char → Bool
  min : Nat
  max : Option Nat

/-- The pattern
`([a-zA-Z0-9._%+\-]+)@([a-zA-Z0-9.\-]+)\.([a-zA-Z]{2,5})`
as a concatenation of greedy repetitions (capture groups do not change
what `FindString` returns). -/
def emailRe : List Rep :=
  [ ⟨isLocalChar, 1, none⟩, ⟨isAt, 1, some 1⟩, ⟨isDomainChar, 1, none⟩,
    ⟨isDot, 1, some 1⟩, ⟨isLetter, 2, some 5⟩ ]

/-- Number of leading characters of `cs` in the class, at most `cap`. -/
def greedyCount (cls : Char → Bool) : Option Nat → List Char → Nat
  | some 0, _ => 0
  | _, [] => 0
  | cap, c :: cs =>
    if cls c then greedyCount cls (cap.map (· - 1)) cs + 1 else 0

/-- Try `f hi`, `f (hi-1)`, ..., `f lo` and return the first success:
the order in which a greedy repetition gives characters back. -/
def firstDown (f : Nat → Option Nat) (lo : Nat) : Nat → Option Nat
  | 0 => if lo = 0 then f 0 else none
  | k + 1 =>
    if k + 1 < lo then none
    else match f (k + 1) with
      | some r => some r
      | none => firstDown f lo k

/-- Leftmost-first match of a concatenation of greedy repetitions at the
start of `cs`: the number of characters of the match a backtracking
matcher finds first, `none` when there is no match at this position. -/
def matchSeq : List Rep → List Char → Option Nat
  | [], _ => some 0
  | r :: rest, cs =>
    firstDown (fun k => (matchSeq rest (cs.drop k)).map (k + ·)) r.min
      (greedyCount r.cls r.max cs)

/-- Scan the start positions from the left; the text of the first match. -/
def findFrom (re : List Rep) : List Char → Option (List Char)
  | [] => (matchSeq re []).map (fun n => List.take n [])
  | c :: cs =>
    match matchSeq re (c :: cs) with
    | some n => some ((c :: cs).take n)
    | none => findFrom re cs

/-- `regexp.FindString`: the text of the leftmost match, `""` when there
is none. -/
def FindString (re : List Rep) (s : String) : String :=
  String.mk ((findFrom re s.data).getD [])

/-- Source function `extractEmail` (lines 16-19). -/
def extractEmail (addr : String) : String :=
  FindString emailRe addr

/-! ## Paths -/

/-- The components of a path: the pieces between the `/` characters. -/
def splitSlash : List Char → List (List Char)
  | [] => [[]]
  | c :: cs =>
    if c = '/' then [] :: splitSlash cs
    else match splitSlash cs with
      | [] => [[c]]
      | h :: t => (c :: h) :: t

/-- One step of path resolution: empty components and `.` are skipped,
`..` removes the last component (the parent of the root is the root, and a
relative path may climb above its start), any other component is
appended. The root is the component `"/"`. -/
def resolveStep (stack : List String) (comp : String) : List String :=
  if comp = "" then stack
  else if comp = "." then stack
  else if comp = ".." then
    (if stack = [] then [".."]
     else if stack.getLast? = some "/" then stack
     else if stack.getLast? = some ".." then stack ++ [".."]
     else stack.dropLast)
  else stack ++ [comp]

/-- The file a path string names: its components after resolution, so
that `a/b/../c`, `a//c` and `a/./c` name the same file as `a/c`. -/
def resolvePath (p : String) : List String :=
  ((splitSlash p.data).map String.mk).foldl resolveStep
    (if p.data.head? = some '/' then ["/"] else [])

/-- A plain file name: not empty, not `.` or `..`, and without `/`. -/
def plainName (n : String) : Bool :=
  n != "" && n != "." && n != ".." && !n.data.contains '/'

/-- The database file of line 91. -/
def indexPath (basedir : String) : List String :=
  resolvePath (basedir ++ "/index.sqlite.db")

/-! ## Data model of the sync loop -/

/-- Fields of the `time.Time` returned by `GetDate()`. -/
structure Time where
  year : Nat
  month : Nat
  day : Nat
  hour : Nat
  minute : Nat
  second : Nat
deriving DecidableEq

/-- Decimal rendering of a non-negative integer, zero-padded on the left
to at least `width` characters (`%03d` for `width = 3`; the components of
`time.Format`). -/
def zeroPad (width n : Nat) : String :=
  String.mk (List.replicate (width - (Nat.toDigits 10 n).length) '0' ++ Nat.toDigits 10 n)

/-- Layout `"20060102"`. -/
def Time.Format20060102 (t : Time) : String :=
  zeroPad 4 t.year ++ zeroPad 2 t.month ++ zeroPad 2 t.day

/-- Layout `"150405"`. -/
def Time.Format150405 (t : Time) : String :=
  zeroPad 2 t.hour ++ zeroPad 2 t.minute ++ zeroPad 2 t.second

/-- Layout `"20060102-150405"`. -/
def Time.FormatStamp (t : Time) : String :=
  t.Format20060102 ++ "-" ++ t.Format150405

/-- Attachment object: `GetFilename()` and `GetData()`. -/
structure Attachment where
  GetFilename : String
  GetData : String
deriving DecidableEq

/-- Message object yielded by `gs.GetMessages()`, one field per accessor
the loop calls. -/
structure Message where
  GetMessageId : String
  GetThreadId : String
  GetDate : Time
  GetFrom : String
  GetSubject : String
  HasBodyText : Bool
  GetBodyText : String
  HasBodyHtml : Bool
  GetBodyHtml : String
  HasAttachments : Bool
  GetAttachments : List Attachment
deriving DecidableEq

/-- One row of table `mailidx` (lines 28-37). -/
structure IndexRecord where
  messageid : String
  threadid : String
  date : String
  time : String
  sender : String
  subject : String
  filename : String
  attachments : String
deriving DecidableEq

/-- Environment: for each operation, the arguments on which it fails for
a reason that is not visible in the modelled state (full disk,
permissions, a missing parent directory, a storage error of the
database); and `parseDb`, how the database engine reads the bytes of a
file: the rows of `mailidx` when the bytes are a database it accepts,
`none` when they are not. -/
structure Faults where
  queryRow : String → Bool
  mkdirAll : String → Bool
  openFile : String → Bool
  fprint : String → Bool
  writeFile : String → Bool
  exec : String → Bool
  parseDb : String → Option (List IndexRecord)

/-- Environment without faults, in which no attachment data is a
database. -/
def noFaults : Faults :=
  ⟨fun _ => false, fun _ => false, fun _ => false, fun _ => false, fun _ => false,
    fun _ => false, fun _ => none⟩

/-- Observable operations, in the order the program performs them, with
the path strings as the program passes them; `ok` is whether the call
returned a nil error. -/
inductive Event
  | queryRow (messageid : String) (found : Bool)
  | queryFailed (messageid : String)
  | mkdirAll (path : String) (ok : Bool)
  | openFile (path : String) (ok : Bool)
  | fprint (path : String) (content : String) (ok : Bool)
  | writeFile (path : String) (data : String) (ok : Bool)
  | exec (rec : IndexRecord) (ok : Bool)
deriving DecidableEq

/-- State while the loop runs, after `loadSqlite` succeeded (line 91):
the regular files other than the database file, keyed by their resolved
path, with their content; the rows of `mailidx` in the database file;
whether that file still is a database the engine accepts; and the
operations performed so far. -/
structure World where
  files : List (List String × String)
  index : List IndexRecord
  dbValid : Bool
  log : List Event
deriving DecidableEq

/-- Reason of a `log.Fatal`. -/
inductive Fatal
  | queryError (messageid : String)
  | cantCreate (fname : String)
  | duplicateKey (messageid : String)
  | execError (messageid : String)
  | unfinished
deriving DecidableEq

/-- Whether a file exists at the path; `db` is the database file, which
exists. -/
def World.fileExists (w : World) (db : List String) (p : String) : Bool :=
  resolvePath p == db || w.files.any (fun e => e.1 == resolvePath p)

/-- Content of the regular file at the path. -/
def World.content (w : World) (p : String) : Option String :=
  (w.files.find? (fun e => e.1 == resolvePath p)).map (fun e => e.2)

/-- Whether the index has a row with the message id. -/
def World.indexed (w : World) (id : String) : Bool :=
  w.index.any (fun r => r.messageid == id)

/-- Append an event to the log. -/
def World.emit (w : World) (e : Event) : World :=
  { w with log := w.log ++ [e] }

/-- Replace the content of the file at `q`. -/
def setContent (files : List (List String × String)) (q : List String) (c : String) :
    List (List String × String) :=
  files.map (fun e => if e.1 == q then (e.1, c) else e)

/-- `os.MkdirAll(path, 0755)`; directories are not part of the state. -/
def osMkdirAll (env : Faults) (w : World) (p : String) : World :=
  w.emit (.mkdirAll p (!env.mkdirAll p))

/-- `os.OpenFile(p, os.O_WRONLY|os.O_CREATE|os.O_EXCL, 0755)`: fails when
a file exists at the path or on a fault, otherwise creates the empty
file. -/
def osOpenFileExcl (env : Faults) (db : List String) (w : World) (p : String) :
    Bool × World :=
  if env.openFile p || w.fileExists db p then (false, w.emit (.openFile p false))
  else (true, { files := w.files ++ [(resolvePath p, "")], index := w.index,
                dbValid := w.dbValid, log := w.log ++ [.openFile p true] })

/-- `fmt.Fprint(fp, content)` on the file just created at `p`. -/
def fmtFprint (env : Faults) (w : World) (p c : String) : World :=
  if env.fprint p then w.emit (.fprint p c false)
  else { files := setContent w.files (resolvePath p) c, index := w.index,
         dbValid := w.dbValid, log := w.log ++ [.fprint p c true] }

/-- `ioutil.WriteFile(p, data, 0755)`: create or truncate the file the
path names, then write. When the path names the database file, the
database is from then on what the engine reads in the data. -/
def ioutilWriteFile (env : Faults) (db : List String) (w : World) (p data : String) : World :=
  if env.writeFile p then w.emit (.writeFile p data false)
  else if resolvePath p == db then
    { files := w.files, index := (env.parseDb data).getD [],
      dbValid := (env.parseDb data).isSome, log := w.log ++ [.writeFile p data true] }
  else
    { files := if w.files.any (fun e => e.1 == resolvePath p)
               then setContent w.files (resolvePath p) data
               else w.files ++ [(resolvePath p, data)],
      index := w.index, dbValid := w.dbValid, log := w.log ++ [.writeFile p data true] }

/-- `db.Exec("INSERT INTO mailidx VALUES (?,?,?,?,?,?,?,?)", ...)`:
fails when the file is not a database any more, when the primary key
`messageid` is present, or on a storage fault. -/
def dbExecInsert (env : Faults) (w : World) (r : IndexRecord) : World × Option Fatal :=
  if !w.dbValid then (w.emit (.exec r false), some (.execError r.messageid))
  else if w.indexed r.messageid then (w.emit (.exec r false), some (.duplicateKey r.messageid))
  else if env.exec r.messageid then (w.emit (.exec r false), some (.execError r.messageid))
  else ({ files := w.files, index := w.index ++ [r], dbValid := w.dbValid,
          log := w.log ++ [.exec r true] }, none)

/-! ## The loop body -/

/-- `fmt.Sprintf("%s/%s.%03d", dir, timestamp, ctr)` (line 141). -/
def bodyPath (dir timestamp : String) (ctr : Nat) : String :=
  dir ++ "/" ++ timestamp ++ "." ++ zeroPad 3 ctr

/-- Result of the reservation loop. -/
inductive Reserved
  | created (fname : String)
  | fatal (fname : String)
  | unfinished
deriving DecidableEq

/-- The `for` loop of lines 140-150, started at counter `ctr`, with an
explicit bound on the number of iterations (`unfinished` when the bound is
used up). -/
def reserveLoop (env : Faults) (db : List String) (dir timestamp : String) :
    Nat → Nat → World → Reserved × World
  | 0, _, w => (.unfinished, w)
  | fuel + 1, ctr, w =>
    match osOpenFileExcl env db w (bodyPath dir timestamp ctr) with
    | (true, w') => (.created (bodyPath dir timestamp ctr), w')
    | (false, w') =>
      if ctr + 1 > 999 then (.fatal (bodyPath dir timestamp ctr), w')
      else reserveLoop env db dir timestamp fuel (ctr + 1) w'

/-- Lines 139-150: `ctr = 0` and the loop; 1000 iterations are enough
(`reserveBodyFile_cases`). -/
def reserveBodyFile (env : Faults) (db : List String) (dir timestamp : String) (w : World) :
    Reserved × World :=
  reserveLoop env db dir timestamp 1000 0 w

/-- Lines 151-155: which content is printed to the body file, if any. -/
def writeBody (env : Faults) (w : World) (fname : String) (ii : Message) : World :=
  if ii.HasBodyText then fmtFprint env w fname ii.GetBodyText
  else if ii.HasBodyHtml then fmtFprint env w fname ii.GetBodyHtml
  else w

/-- Lines 160-164: the loop over the attachments, with the accumulator
`attNames`. -/
def attachmentLoop (env : Faults) (db : List String) (attDir : String) :
    List Attachment → String → World → String × World
  | [], attNames, w => (attNames, w)
  | att :: rest, attNames, w =>
    let attNames1 := if attNames.length > 0 then attNames ++ ";" else attNames
    attachmentLoop env db attDir rest (attNames1 ++ att.GetFilename)
      (ioutilWriteFile env db w (attDir ++ "/" ++ att.GetFilename) att.GetData)

/-- Lines 157-165. -/
def writeAttachments (env : Faults) (db : List String) (w : World) (fname : String)
    (ii : Message) : String × World :=
  if ii.HasAttachments then
    attachmentLoop env db (fname ++ ".d") ii.GetAttachments ""
      (osMkdirAll env w (fname ++ ".d"))
  else ("", w)

/-- The row inserted at line 166. -/
def mkRecord (ii : Message) (fname attNames : String) : IndexRecord :=
  { messageid := ii.GetMessageId, threadid := ii.GetThreadId,
    date := ii.GetDate.Format20060102, time := ii.GetDate.Format150405,
    sender := ii.GetFrom, subject := ii.GetSubject,
    filename := fname, attachments := attNames }

/-- Directory of line 134. -/
def messageDir (basedir : String) (ii : Message) : String :=
  basedir ++ "/" ++ extractEmail ii.GetFrom ++ "/" ++ ii.GetDate.Format20060102

/-- Lines 130-169: a message that is not in the index. -/
def storeMessage (env : Faults) (basedir : String) (w : World) (ii : Message) :
    World × Option Fatal :=
  match reserveBodyFile env (indexPath basedir) (messageDir basedir ii)
      ii.GetDate.FormatStamp (osMkdirAll env w (messageDir basedir ii)) with
  | (.created fname, w1) =>
    dbExecInsert env
      (writeAttachments env (indexPath basedir) (writeBody env w1 fname ii) fname ii).2
      (mkRecord ii fname
        (writeAttachments env (indexPath basedir) (writeBody env w1 fname ii) fname ii).1)
  | (.fatal fname, w1) => (w1, some (.cantCreate fname))
  | (.unfinished, w1) => (w1, some .unfinished)

/-- One iteration of the loop of line 119: the state after it and the
fatal error, if any. The query of line 121 fails on a storage fault and
when the file is not a database any more. -/
def processMessage (env : Faults) (basedir : String) (w : World) (ii : Message) :
    World × Option Fatal :=
  if env.queryRow ii.GetMessageId || !w.dbValid then
    (w.emit (.queryFailed ii.GetMessageId), some (.queryError ii.GetMessageId))
  else if w.indexed ii.GetMessageId then
    (w.emit (.queryRow ii.GetMessageId true), none)
  else
    storeMessage env basedir (w.emit (.queryRow ii.GetMessageId false)) ii

/-- The loop of lines 119-171 over the messages; it stops at the first
fatal error. -/
def syncLoop (env : Faults) (basedir : String) : World → List Message → World × Option Fatal
  | w, [] => (w, none)
  | w, ii :: rest =>
    match processMessage env basedir w ii with
    | (w', none) => syncLoop env basedir w' rest
    | (w', some f) => (w', some f)

/-! ## Specification-level descriptions of one iteration -/

/-- Body preference in the words of the specification: the body text when
present, else the body html when present, else nothing. -/
def bodyContent (ii : Message) : String :=
  if ii.HasBodyText then ii.GetBodyText
  else if ii.HasBodyHtml then ii.GetBodyHtml
  else ""

/-- Attachment summary in the words of the specification: the filenames
in encounter order, joined with `;`. -/
def attachmentSummary (atts : List Attachment) : String :=
  ";".intercalate (atts.map (fun a => a.GetFilename))

/-- The accumulator `attNames` of lines 161-162 over a list of
attachments. -/
def joinNames : List Attachment → String → String
  | [], attNames => attNames
  | att :: rest, attNames =>
    joinNames rest ((if attNames.length > 0 then attNames ++ ";" else attNames)
      ++ att.GetFilename)

/-- Value of `attNames` at line 166. -/
def attNamesOf (ii : Message) : String :=
  if ii.HasAttachments then joinNames ii.GetAttachments "" else ""

/-- The attachments the loop writes all have plain file names. -/
def plainAttachments (ii : Message) : Bool :=
  !ii.HasAttachments || ii.GetAttachments.all (fun a => plainName a.GetFilename)

/-- Events of lines 151-155 for the body file `fname`. -/
def bodyEvents (env : Faults) (fname : String) (ii : Message) : List Event :=
  if ii.HasBodyText then [Event.fprint fname ii.GetBodyText (!env.fprint fname)]
  else if ii.HasBodyHtml then [Event.fprint fname ii.GetBodyHtml (!env.fprint fname)]
  else []

/-- Events of the attachment loop for the directory `attDir`. -/
def writeFileEvents (env : Faults) (attDir : String) (atts : List Attachment) : List Event :=
  atts.map (fun a => Event.writeFile (attDir ++ "/" ++ a.GetFilename) a.GetData
    (!env.writeFile (attDir ++ "/" ++ a.GetFilename)))

/-- Events of lines 157-165 for the body file `fname`. -/
def attachmentEvents (env : Faults) (fname : String) (ii : Message) : List Event :=
  if ii.HasAttachments then
    Event.mkdirAll (fname ++ ".d") (!env.mkdirAll (fname ++ ".d")) ::
      writeFileEvents env (fname ++ ".d") ii.GetAttachments
  else []

/-- Events of the reservation that succeeds at counter `c`. -/
def reserveEvents (dir ts : String) (c : Nat) : List Event :=
  (List.range c).map (fun j => Event.openFile (bodyPath dir ts j) false)
    ++ [Event.openFile (bodyPath dir ts c) true]

/-- The `fprint` calls among the events, as (path, content). -/
def fprintsOf (evs : List Event) : List (String × String) :=
  evs.filterMap (fun e => match e with
    | Event.fprint p c _ => some (p, c)
    | _ => none)

/-- The `writeFile` calls among the events, as (path, data). -/
def writeFilesOf (evs : List Event) : List (String × String) :=
  evs.filterMap (fun e => match e with
    | Event.writeFile p d _ => some (p, d)
    | _ => none)

/-- The rows inserted among the events. -/
def insertsOf (evs : List Event) : List IndexRecord :=
  evs.filterMap (fun e => match e with
    | Event.exec r true => some r
    | _ => none)

/-- The files created by `os.OpenFile` among the events. -/
def createdOf (evs : List Event) : List String :=
  evs.filterMap (fun e => match e with
    | Event.openFile p true => some p
    | _ => none)

/-- The message ids of the rows of the index. -/
def World.ids (w : World) : List String :=
  w.index.map (fun r => r.messageid)

/-- Body path of the message for counter `c` (lines 130-141). -/
def bodyPathOf (basedir : String) (ii : Message) (c : Nat) : String :=
  bodyPath (messageDir basedir ii) ii.GetDate.FormatStamp c

/-- World after lines 135-150 when the reservation succeeds at counter
`c`. -/
def reservedWorld (env : Faults) (basedir : String) (w : World) (ii : Message) (c : Nat) :
    World :=
  ⟨w.files ++ [(resolvePath (bodyPathOf basedir ii c), "")], w.index, w.dbValid,
    (w.log ++ [Event.mkdirAll (messageDir basedir ii) (!env.mkdirAll (messageDir basedir ii))])
      ++ reserveEvents (messageDir basedir ii) ii.GetDate.FormatStamp c⟩

/-- World after the body was written (line 156) when the reservation
succeeded at counter `c`. -/
def bodyWorld (env : Faults) (basedir : String) (w : World) (ii : Message) (c : Nat) :
    World :=
  writeBody env (reservedWorld env basedir w ii c) (bodyPathOf basedir ii c) ii

/-- World just before the insert of line 166 when the reservation
succeeded at counter `c`. -/
def writtenWorld (env : Faults) (basedir : String) (w : World) (ii : Message) (c : Nat) :
    World :=
  (writeAttachments env (indexPath basedir) (bodyWorld env basedir w ii c)
    (bodyPathOf basedir ii c) ii).2

/-! ## Concrete inputs -/

/-- State with no files and no rows, the database usable. -/
def emptyWorld : World := ⟨[], [], true, []⟩

/-- Message with a body text, a body html and two attachments. -/
def sampleMessage : Message :=
  { GetMessageId := "m1", GetThreadId := "t1", GetDate := ⟨2024, 1, 2, 3, 4, 5⟩,
    GetFrom := "John Doe <john.doe@example.co>", GetSubject := "hi",
    HasBodyText := true, GetBodyText := "hello",
    HasBodyHtml := true, GetBodyHtml := "<p>hello</p>",
    HasAttachments := true,
    GetAttachments := [⟨"a.txt", "A"⟩, ⟨"b.pdf", "B"⟩] }

/-- Message with another id, the same sender address and the same date. -/
def sampleMessage2 : Message :=
  { GetMessageId := "m2", GetThreadId := "t1", GetDate := ⟨2024, 1, 2, 3, 4, 5⟩,
    GetFrom := "<john.doe@example.co>", GetSubject := "again",
    HasBodyText := false, GetBodyText := "",
    HasBodyHtml := true, GetBodyHtml := "<p>two</p>",
    HasAttachments := false, GetAttachments := [] }

/-- Message whose first attachment has an empty filename. -/
def unnamedAttachmentMessage : Message :=
  { GetMessageId := "m3", GetThreadId := "t3", GetDate := ⟨2024, 1, 2, 3, 4, 5⟩,
    GetFrom := "a@b.cc", GetSubject := "s",
    HasBodyText := true, GetBodyText := "x",
    HasBodyHtml := false, GetBodyHtml := "",
    HasAttachments := true,
    GetAttachments := [⟨"", "A"⟩, ⟨"b.pdf", "B"⟩] }

/-- Message whose attachment filename leads back to its own body file. -/
def ownBodyOverwriteMessage : Message :=
  { GetMessageId := "m4", GetThreadId := "t4", GetDate := ⟨2024, 1, 2, 3, 4, 5⟩,
    GetFrom := "john.doe@example.co", GetSubject := "s",
    HasBodyText := true, GetBodyText := "hello",
    HasBodyHtml := false, GetBodyHtml := "",
    HasAttachments := true,
    GetAttachments := [⟨"../20240102-030405.000", "PWNED"⟩] }

/-- Message with the sender and date of `sampleMessage` whose attachment
filename leads to the body file with counter 000. -/
def firstBodyOverwriteMessage : Message :=
  { GetMessageId := "m5", GetThreadId := "t5", GetDate := ⟨2024, 1, 2, 3, 4, 5⟩,
    GetFrom := "john.doe@example.co", GetSubject := "s",
    HasBodyText := true, GetBodyText := "second",
    HasBodyHtml := false, GetBodyHtml := "",
    HasAttachments := true,
    GetAttachments := [⟨"../20240102-030405.000", "PWNED"⟩] }

/-- Message whose attachment filename leads to the database file; its
data is not a database. -/
def indexOverwriteMessage : Message :=
  { GetMessageId := "m6", GetThreadId := "t6", GetDate := ⟨2024, 1, 2, 3, 4, 5⟩,
    GetFrom := "john.doe@example.co", GetSubject := "s",
    HasBodyText := true, GetBodyText := "x",
    HasBodyHtml := false, GetBodyHtml := "",
    HasAttachments := true,
    GetAttachments := [⟨"../../../index.sqlite.db", "PWNED"⟩] }

/-- Message whose attachment filename leads to the database file; its
data stands for the bytes of a database with an empty `mailidx` table
(such as a copy of the file `loadSqlite` creates, lines 23-46). -/
def indexReplaceMessage : Message :=
  { GetMessageId := "m7", GetThreadId := "t7", GetDate := ⟨2024, 1, 2, 3, 4, 5⟩,
    GetFrom := "john.doe@example.co", GetSubject := "s",
    HasBodyText := true, GetBodyText := "x",
    HasBodyHtml := false, GetBodyHtml := "",
    HasAttachments := true,
    GetAttachments := [⟨"../../../index.sqlite.db", "database image: mailidx, no rows"⟩] }

/-- Environment in which every write to a body file fails (and nothing
else does). -/
def fprintFaults : Faults :=
  ⟨fun _ => false, fun _ => false, fun _ => false, fun _ => true, fun _ => false,
    fun _ => false, fun _ => none⟩

/-- Environment without faults in which the database engine reads the
data of `indexReplaceMessage` as a database with an empty `mailidx` table
and rejects every other data. -/
def dbImageEnv : Faults :=
  ⟨fun _ => false, fun _ => false, fun _ => false, fun _ => false, fun _ => false,
    fun _ => false,
    fun d => if d = "database image: mailidx, no rows" then some [] else none⟩

/-- The pattern in the words of the specification: a non-empty local part
of letters, digits and `._%+-`, an `@`, a non-empty domain of letters,
digits and `.-`, a dot, and 2 to 5 letters. -/
def IsEmailAddress (m : List Char) : Prop :=
  ∃ l d t, m = l ++ '@' :: (d ++ '.' :: t) ∧
    l ≠ [] ∧ (∀ c ∈ l, isLocalChar c = true) ∧
    d ≠ [] ∧ (∀ c ∈ d, isDomainChar c = true) ∧
    2 ≤ t.length ∧ t.length ≤ 5 ∧ (∀ c ∈ t, isLetter c = true)

/-- Denotation of a concatenation of repetitions: `m` splits into one
block per factor, each block in its class and within its bounds. -/
def Matches : List Rep → List Char → Prop
  | [], m => m = []
  | r :: rest, m =>
    ∃ a b, m = a ++ b ∧ (∀ c ∈ a, r.cls c = true) ∧ r.min ≤ a.length ∧
      (∀ n, r.max = some n → a.length ≤ n) ∧ Matches rest b

/-! ## Theorems -/

/-! ### The matcher -/

theorem greedyCount_le_length (cls : Char → Bool) (cap : Option Nat) (cs : List Char) :
    greedyCount cls cap cs ≤ cs.length := by
  induction cs generalizing cap with
  | nil => cases cap with
    | none => simp [greedyCount]
    | some n => cases n <;> simp [greedyCount]
  | cons c cs ih =>
    cases cap with
    | none =>
      simp only [greedyCount]
      split
      · simpa using ih _
      · simp
    | some n =>
      cases n with
      | zero => simp [greedyCount]
      | succ n =>
        simp only [greedyCount]
        split
        · simpa using ih _
        · simp

theorem greedyCount_le_cap (cls : Char → Bool) (n : Nat) (cs : List Char) :
    greedyCount cls (some n) cs ≤ n := by
  induction cs generalizing n with
  | nil => cases n <;> simp [greedyCount]
  | cons c cs ih =>
    cases n with
    | zero => simp [greedyCount]
    | succ n =>
      simp only [greedyCount]
      split
      · simpa using ih n
      · simp

theorem greedyCount_take_cls (cls : Char → Bool) (cap : Option Nat) (cs : List Char) :
    ∀ c ∈ cs.take (greedyCount cls cap cs), cls c = true := by
  induction cs generalizing cap with
  | nil => intro c hc; simp at hc
  | cons d cs ih =>
    intro c hc
    cases cap with
    | none =>
      simp only [greedyCount] at hc
      split at hc
      · rename_i hd
        simp only [List.take_succ_cons, List.mem_cons] at hc
        rcases hc with rfl | hc
        · exact hd
        · exact ih _ c hc
      · simp at hc
    | some n =>
      cases n with
      | zero => simp [greedyCount] at hc
      | succ n =>
        simp only [greedyCount] at hc
        split at hc
        · rename_i hd
          simp only [List.take_succ_cons, List.mem_cons] at hc
          rcases hc with rfl | hc
          · exact hd
          · exact ih _ c hc
        · simp at hc

theorem greedyCount_maximal (cls : Char → Bool) (cap : Option Nat) (a b : List Char)
    (hcls : ∀ c ∈ a, cls c = true) (hcap : ∀ n, cap = some n → a.length ≤ n) :
    a.length ≤ greedyCount cls cap (a ++ b) := by
  induction a generalizing cap with
  | nil => simp
  | cons d a ih =>
    have hd : cls d = true := hcls d (by simp)
    have ha : ∀ c ∈ a, cls c = true := fun c hc => hcls c (by simp [hc])
    cases cap with
    | none =>
      simp only [List.cons_append, greedyCount, hd, if_true, List.length_cons]
      have := ih none ha (by simp)
      simpa using this
    | some n =>
      cases n with
      | zero => have := hcap 0 rfl; simp at this
      | succ n =>
        simp only [List.cons_append, greedyCount, hd, if_true, List.length_cons]
        have := ih (some n) ha (by
          intro k hk
          have h1 := hcap (n + 1) rfl
          simp only [Option.some.injEq] at hk
          simp only [List.length_cons] at h1
          omega)
        simpa using this

theorem greedyCount_take_le (cls : Char → Bool) (cap : Option Nat) (cs : List Char) (n : Nat) :
    greedyCount cls cap (cs.take n) ≤ greedyCount cls cap cs := by
  have h1 := greedyCount_le_length cls cap (cs.take n)
  have h := greedyCount_maximal cls cap
    ((cs.take n).take (greedyCount cls cap (cs.take n)))
    ((cs.take n).drop (greedyCount cls cap (cs.take n)) ++ cs.drop n)
    (greedyCount_take_cls cls cap (cs.take n))
    (by
      intro k hk
      subst hk
      have := greedyCount_le_cap cls k (cs.take n)
      simp only [List.length_take]
      omega)
  rw [← List.append_assoc, List.take_append_drop, List.take_append_drop] at h
  have h2 : ((cs.take n).take (greedyCount cls cap (cs.take n))).length
      = greedyCount cls cap (cs.take n) := by
    rw [List.length_take]; exact min_eq_left h1
  omega

theorem firstDown_some {f : Nat → Option Nat} {lo hi r : Nat}
    (h : firstDown f lo hi = some r) :
    ∃ k, lo ≤ k ∧ k ≤ hi ∧ f k = some r ∧ ∀ j, k < j → j ≤ hi → f j = none := by
  induction hi with
  | zero =>
    simp only [firstDown] at h
    split at h
    · rename_i hlo
      exact ⟨0, by omega, le_refl _, h, fun j h1 h2 => by omega⟩
    · cases h
  | succ k ih =>
    simp only [firstDown] at h
    split at h
    · cases h
    · rename_i hlo
      split at h
      · rename_i r' hr
        cases h
        exact ⟨k + 1, by omega, le_refl _, hr, fun j h1 h2 => by omega⟩
      · rename_i hr
        obtain ⟨k', h1, h2, h3, h4⟩ := ih h
        refine ⟨k', h1, by omega, h3, fun j hj1 hj2 => ?_⟩
        rcases Nat.lt_or_ge j (k + 1) with hlt | hge
        · exact h4 j hj1 (by omega)
        · have : j = k + 1 := by omega
          subst this
          exact hr

theorem firstDown_none {f : Nat → Option Nat} {lo hi : Nat}
    (h : firstDown f lo hi = none) :
    ∀ k, lo ≤ k → k ≤ hi → f k = none := by
  induction hi with
  | zero =>
    intro k h1 h2
    simp only [firstDown] at h
    have hk : k = 0 := by omega
    subst hk
    have : lo = 0 := by omega
    simpa [this] using h
  | succ n ih =>
    intro k h1 h2
    simp only [firstDown] at h
    split at h
    · omega
    · split at h
      · cases h
      · rename_i hr
        rcases Nat.lt_or_ge k (n + 1) with hlt | hge
        · exact ih h k h1 (by omega)
        · have : k = n + 1 := by omega
          subst this
          exact hr

theorem firstDown_eq_some {f : Nat → Option Nat} {lo hi k r : Nat}
    (h1 : lo ≤ k) (h2 : k ≤ hi) (h3 : f k = some r)
    (h4 : ∀ j, k < j → j ≤ hi → f j = none) : firstDown f lo hi = some r := by
  cases h : firstDown f lo hi with
  | none => have := firstDown_none h k h1 h2; simp [h3] at this
  | some r' =>
    obtain ⟨k', a1, a2, a3, a4⟩ := firstDown_some h
    rcases Nat.lt_trichotomy k k' with hlt | heq | hgt
    · have := h4 k' hlt a2; simp [a3] at this
    · subst heq; rw [h3] at a3; exact a3.symm
    · have := a4 k hgt h2; simp [h3] at this

theorem matchSeq_cons_some {r : Rep} {rest : List Rep} {cs : List Char} {n : Nat}
    (h : matchSeq (r :: rest) cs = some n) :
    ∃ k len, n = k + len ∧ r.min ≤ k ∧ k ≤ greedyCount r.cls r.max cs ∧
      matchSeq rest (cs.drop k) = some len ∧
      ∀ j, k < j → j ≤ greedyCount r.cls r.max cs → matchSeq rest (cs.drop j) = none := by
  simp only [matchSeq] at h
  obtain ⟨k, h1, h2, h3, h4⟩ := firstDown_some h
  obtain ⟨len, h5, h6⟩ := Option.map_eq_some'.1 h3
  refine ⟨k, len, h6.symm, h1, h2, h5, fun j hj1 hj2 => ?_⟩
  have := h4 j hj1 hj2
  simpa using this

theorem matchSeq_sound {re : List Rep} {cs : List Char} {n : Nat}
    (h : matchSeq re cs = some n) : n ≤ cs.length ∧ Matches re (cs.take n) := by
  induction re generalizing cs n with
  | nil =>
    simp only [matchSeq, Option.some.injEq] at h
    subst h
    simp [Matches]
  | cons r rest ih =>
    obtain ⟨k, len, hn, h1, h2, h3, _⟩ := matchSeq_cons_some h
    obtain ⟨hlen, hm⟩ := ih h3
    have hk : k ≤ cs.length := le_trans h2 (greedyCount_le_length _ _ _)
    have hkl : (cs.take k).length = k := by
      rw [List.length_take]; exact min_eq_left hk
    simp only [List.length_drop] at hlen
    refine ⟨by omega, cs.take k, (cs.drop k).take len, ?_, ?_, ?_, ?_, hm⟩
    · rw [hn, List.take_add]
    · intro c hc
      apply greedyCount_take_cls r.cls r.max cs c
      have : cs.take k = (cs.take (greedyCount r.cls r.max cs)).take k := by
        rw [List.take_take, min_eq_left h2]
      rw [this] at hc
      exact List.mem_of_mem_take hc
    · omega
    · intro m hmax
      have := greedyCount_le_cap r.cls m cs
      rw [hmax] at h2
      omega

theorem matchSeq_complete {re : List Rep} {m : List Char} (h : Matches re m)
    (post : List Char) : ∃ n, matchSeq re (m ++ post) = some n := by
  induction re generalizing m with
  | nil => exact ⟨0, rfl⟩
  | cons r rest ih =>
    obtain ⟨a, b, hab, hcls, hmin, hmax, hrest⟩ := h
    obtain ⟨len, hlen⟩ := ih hrest
    cases hres : matchSeq (r :: rest) (m ++ post) with
    | some n => exact ⟨n, rfl⟩
    | none =>
      exfalso
      simp only [matchSeq] at hres
      have hk : a.length ≤ greedyCount r.cls r.max (m ++ post) := by
        rw [hab, List.append_assoc]
        exact greedyCount_maximal r.cls r.max a (b ++ post) hcls hmax
      have := firstDown_none hres a.length hmin hk
      rw [hab, List.append_assoc, List.drop_left, hlen] at this
      simp at this

theorem matchSeq_extend {re : List Rep} {cs : List Char} {n : Nat}
    (h : matchSeq re cs = some n) (post : List Char) :
    ∃ n', matchSeq re (cs ++ post) = some n' := by
  obtain ⟨_, hm⟩ := matchSeq_sound h
  obtain ⟨n', hn'⟩ := matchSeq_complete hm (cs.drop n ++ post)
  rw [← List.append_assoc, List.take_append_drop] at hn'
  exact ⟨n', hn'⟩

/-- Matching the text of a match again returns the whole text. -/
theorem matchSeq_take {re : List Rep} {cs : List Char} {n : Nat}
    (h : matchSeq re cs = some n) : matchSeq re (cs.take n) = some n := by
  induction re generalizing cs n with
  | nil =>
    simp only [matchSeq, Option.some.injEq] at h
    subst h
    rfl
  | cons r rest ih =>
    obtain ⟨k, len, hn, h1, h2, h3, h4⟩ := matchSeq_cons_some h
    obtain ⟨hlen, _⟩ := matchSeq_sound h3
    have hk : k ≤ cs.length := le_trans h2 (greedyCount_le_length _ _ _)
    simp only [List.length_drop] at hlen
    simp only [matchSeq]
    apply firstDown_eq_some (k := k) h1
    · have hmax := greedyCount_maximal r.cls r.max (cs.take k) ((cs.drop k).take len)
        (by
          intro c hc
          apply greedyCount_take_cls r.cls r.max cs c
          have : cs.take k = (cs.take (greedyCount r.cls r.max cs)).take k := by
            rw [List.take_take, min_eq_left h2]
          rw [this] at hc
          exact List.mem_of_mem_take hc)
        (by
          intro m hmax
          have := greedyCount_le_cap r.cls m cs
          rw [hmax] at h2
          rw [List.length_take]
          have := min_le_left k cs.length
          omega)
      rw [← List.take_add, ← hn, List.length_take, min_eq_left hk] at hmax
      exact hmax
    · have : (cs.take n).drop k = (cs.drop k).take len := by
        rw [List.drop_take]; congr 1; omega
      rw [this, ih h3]
      simp [hn]
    · intro j hj1 hj2
      have hj3 : j ≤ greedyCount r.cls r.max cs :=
        le_trans hj2 (greedyCount_take_le _ _ _ _)
      have hnone := h4 j hj1 hj3
      cases hres : matchSeq rest ((cs.take n).drop j) with
      | none => rfl
      | some l =>
        exfalso
        obtain ⟨n', hn'⟩ := matchSeq_extend hres ((cs.drop j).drop (n - j))
        rw [List.drop_take, List.take_append_drop, hnone] at hn'
        cases hn'

theorem findFrom_some {re : List Rep} {cs m : List Char} (h : findFrom re cs = some m) :
    ∃ pre post n, cs = pre ++ (m ++ post) ∧ matchSeq re (m ++ post) = some n ∧
      m = (m ++ post).take n ∧
      ∀ pre' suf, cs = pre' ++ suf → pre'.length < pre.length → matchSeq re suf = none := by
  induction cs with
  | nil =>
    simp only [findFrom] at h
    obtain ⟨n, h1, h2⟩ := Option.map_eq_some'.1 h
    have hm : m = [] := by simpa using h2.symm
    subst hm
    refine ⟨[], [], n, by simp, by simpa using h1, by simp, ?_⟩
    intro pre' suf _ hlt; simp at hlt
  | cons c cs ih =>
    simp only [findFrom] at h
    split at h
    · rename_i n hn
      simp only [Option.some.injEq] at h
      refine ⟨[], (c :: cs).drop n, n, ?_, ?_, ?_, ?_⟩
      · simp [← h]
      · rw [← h, List.take_append_drop]; exact hn
      · rw [← h, List.take_append_drop]
      · intro pre' suf _ hlt; simp at hlt
    · rename_i hn
      obtain ⟨pre, post, n, a1, a2, a3, a4⟩ := ih h
      refine ⟨c :: pre, post, n, by simp [a1], a2, a3, ?_⟩
      intro pre' suf hsplit hlt
      cases pre' with
      | nil =>
        simp only [List.nil_append] at hsplit
        rw [← hsplit]; exact hn
      | cons d pre'' =>
        simp only [List.cons_append, List.cons.injEq] at hsplit
        exact a4 pre'' suf hsplit.2 (by simpa using hlt)

theorem findFrom_none {re : List Rep} {cs : List Char} (h : findFrom re cs = none) :
    ∀ pre suf, cs = pre ++ suf → matchSeq re suf = none := by
  induction cs with
  | nil =>
    intro pre suf hsplit
    simp only [findFrom, Option.map_eq_none'] at h
    have : suf = [] := by
      have := congrArg List.length hsplit
      simp only [List.length_nil, List.length_append] at this
      exact List.eq_nil_of_length_eq_zero (by omega)
    rw [this]; exact h
  | cons c cs ih =>
    intro pre suf hsplit
    simp only [findFrom] at h
    split at h
    · cases h
    · rename_i hn
      cases pre with
      | nil =>
        simp only [List.nil_append] at hsplit
        rw [← hsplit]; exact hn
      | cons d pre' =>
        simp only [List.cons_append, List.cons.injEq] at hsplit
        exact ih h pre' suf hsplit.2

theorem single_of_cls {a : List Char} {x : Char}
    (hcls : ∀ c ∈ a, (c == x) = true) (h1 : 1 ≤ a.length) (h2 : a.length ≤ 1) : a = [x] := by
  match a, hcls, h1, h2 with
  | [c], hcls, _, _ =>
    have := hcls c (by simp)
    simp only [beq_iff_eq] at this
    rw [this]
  | [], _, h1, _ => simp at h1
  | _ :: _ :: _, _, _, h2 => simp at h2

theorem matches_emailRe_iff (m : List Char) : Matches emailRe m ↔ IsEmailAddress m := by
  constructor
  · rintro ⟨l, b1, e1, hl, hl1, _, a2, b2, e2, h2, h21, h22, d, b3, e3, hd, hd1, _,
      a4, b4, e4, h4, h41, h42, t, b5, e5, ht, ht1, ht2, e6⟩
    have ha2 : a2 = ['@'] := single_of_cls h2 h21 (h22 1 rfl)
    have ha4 : a4 = ['.'] := single_of_cls h4 h41 (h42 1 rfl)
    simp only [Matches] at e6
    subst e6 ha2 ha4
    refine ⟨l, d, t, ?_, ?_, hl, ?_, hd, ht1, ht2 5 rfl, ht⟩
    · rw [e1, e2, e3, e4, e5]; simp
    · intro h; simp [h] at hl1
    · intro h; simp [h] at hd1
  · rintro ⟨l, d, t, e, hl0, hl, hd0, hd, ht1, ht2, ht⟩
    refine ⟨l, '@' :: (d ++ '.' :: t), e, hl, ?_, by simp, ['@'], d ++ '.' :: t, rfl, ?_,
      by simp, by simp, d, '.' :: t, rfl, hd, ?_, by simp, ['.'], t, rfl, ?_, by simp,
      by simp, t, [], by simp, ht, ht1, ?_, rfl⟩
    · cases l with
      | nil => exact absurd rfl hl0
      | cons _ _ => simp
    · intro c hc; simp at hc; simp [hc, isAt]
    · cases d with
      | nil => exact absurd rfl hd0
      | cons _ _ => simp
    · intro c hc; simp at hc; simp [hc, isDot]
    · intro n hn; simp at hn; omega

theorem isEmailAddress_ne_nil {m : List Char} (h : IsEmailAddress m) : m ≠ [] := by
  obtain ⟨l, d, t, e, _⟩ := h
  rw [e]; simp

/-- Result of `findFrom emailRe`, in terms of the specification's pattern. -/
theorem findFrom_emailRe_some {cs m : List Char} (h : findFrom emailRe cs = some m) :
    IsEmailAddress m ∧ ∃ pre post, cs = pre ++ m ++ post ∧
      ∀ pre' m' post', cs = pre' ++ m' ++ post' → IsEmailAddress m' →
        pre.length ≤ pre'.length := by
  obtain ⟨pre, post, n, e, hn, hm, hleft⟩ := findFrom_some h
  obtain ⟨_, hmatch⟩ := matchSeq_sound hn
  rw [← hm] at hmatch
  refine ⟨(matches_emailRe_iff m).1 hmatch, pre, post, by simp [e], ?_⟩
  intro pre' m' post' e' hm'
  by_contra hlt
  have hnone := hleft pre' (m' ++ post') (by simp [e']) (by omega)
  obtain ⟨n', hn'⟩ := matchSeq_complete ((matches_emailRe_iff m').2 hm') post'
  rw [hnone] at hn'
  cases hn'

theorem findFrom_emailRe_none {cs : List Char} (h : findFrom emailRe cs = none) :
    ¬ ∃ pre m post, cs = pre ++ m ++ post ∧ IsEmailAddress m := by
  rintro ⟨pre, m, post, e, hm⟩
  have hnone := findFrom_none h pre (m ++ post) (by simp [e])
  obtain ⟨n', hn'⟩ := matchSeq_complete ((matches_emailRe_iff m).2 hm) post
  rw [hnone] at hn'
  cases hn'

theorem string_mk_eq_empty_iff (m : List Char) : String.mk m = "" ↔ m = [] := by
  constructor
  · intro h
    have := congrArg String.data h
    simpa using this
  · intro h; subst h; rfl

theorem findFrom_idem {re : List Rep} {cs m : List Char} (h : findFrom re cs = some m) :
    findFrom re m = some m := by
  obtain ⟨pre, post, n, e, hn, hm, _⟩ := findFrom_some h
  have ht := matchSeq_take hn
  rw [← hm] at ht
  have hle : m.length ≤ n := by
    have := congrArg List.length hm
    rw [List.length_take] at this
    have := min_le_left n (m ++ post).length
    omega
  cases m with
  | nil =>
    simp only [findFrom, ht, Option.map_some']
    simp
  | cons c m' =>
    simp only [findFrom, ht]
    rw [List.take_of_length_le hle]

/-- C1: `extractEmail s` is a substring of `s` matching the address
pattern that starts at the least position at which any matching substring
starts; it is empty exactly when `s` has no matching substring; and the two
examples of the specification evaluate as stated. -/
theorem extractEmail_leftmost_match (s : String) :
    (extractEmail s = "" ∨
      (IsEmailAddress (extractEmail s).data ∧
        ∃ pre post, s.data = pre ++ (extractEmail s).data ++ post ∧
          ∀ pre' m post', s.data = pre' ++ m ++ post' → IsEmailAddress m →
            pre.length ≤ pre'.length)) ∧
    (extractEmail s = "" ↔ ¬ ∃ pre m post, s.data = pre ++ m ++ post ∧ IsEmailAddress m) ∧
    extractEmail "John Doe <john.doe@example.co>" = "john.doe@example.co" ∧
    extractEmail "not-an-address" = "" := by
  refine ⟨?_, ?_, by decide, by decide⟩
  · cases h : findFrom emailRe s.data with
    | none => left; simp [extractEmail, FindString, h]
    | some m =>
      right
      have hr : (extractEmail s).data = m := by simp [extractEmail, FindString, h]
      rw [hr]
      exact findFrom_emailRe_some h
  · cases h : findFrom emailRe s.data with
    | none =>
      have hr : extractEmail s = "" := by simp [extractEmail, FindString, h]
      simp only [hr, true_iff]
      exact findFrom_emailRe_none h
    | some m =>
      have hr : extractEmail s = String.mk m := by simp [extractEmail, FindString, h]
      obtain ⟨hm, pre, post, e, _⟩ := findFrom_emailRe_some h
      have hne : String.mk m ≠ "" := fun hc =>
        isEmailAddress_ne_nil hm ((string_mk_eq_empty_iff m).1 hc)
      rw [hr]
      constructor
      · intro hc; exact absurd hc hne
      · intro hc; exact absurd ⟨pre, m, post, e, hm⟩ hc

/-- Characters the claim allows in an extracted address. -/
theorem allowed_of_isLocalChar {c : Char} (h : isLocalChar c = true) :
    isLetter c = true ∨ isDigit c = true ∨ c ∈ ['.', '_', '%', '+', '-', '@'] := by
  simp only [isLocalChar, Bool.or_eq_true, beq_iff_eq] at h
  simp only [List.mem_cons, List.mem_singleton]
  tauto

theorem isLocalChar_of_isDomainChar {c : Char} (h : isDomainChar c = true) :
    isLocalChar c = true := by
  simp only [isDomainChar, Bool.or_eq_true, beq_iff_eq] at h
  simp only [isLocalChar, Bool.or_eq_true, beq_iff_eq]
  tauto

theorem isLocalChar_of_isLetter {c : Char} (h : isLetter c = true) :
    isLocalChar c = true := by
  simp only [isLocalChar, Bool.or_eq_true, beq_iff_eq]
  tauto

theorem count_eq_zero_of_isLocalChar {x : Char} (hx : isLocalChar x = false)
    {l : List Char} (hl : ∀ c ∈ l, isLocalChar c = true) : l.count x = 0 := by
  rw [List.count_eq_zero]
  intro hmem
  have := hl x hmem
  rw [hx] at this
  cases this

/-- Facts about a string matching the address pattern. -/
theorem isEmailAddress_chars {m : List Char} (h : IsEmailAddress m) :
    m.count '@' = 1 ∧
    (∀ c ∈ m, isLetter c = true ∨ isDigit c = true ∨ c ∈ ['.', '_', '%', '+', '-', '@']) ∧
    '/' ∉ m := by
  obtain ⟨l, d, t, e, _, hl, _, hd, _, _, ht⟩ := h
  have hd' : ∀ c ∈ d, isLocalChar c = true := fun c hc => isLocalChar_of_isDomainChar (hd c hc)
  have ht' : ∀ c ∈ t, isLocalChar c = true := fun c hc => isLocalChar_of_isLetter (ht c hc)
  have hat : isLocalChar '@' = false := by decide
  have hsl : isLocalChar '/' = false := by decide
  subst e
  refine ⟨?_, ?_, ?_⟩
  · simp only [List.count_append, List.count_cons, count_eq_zero_of_isLocalChar hat hl,
      count_eq_zero_of_isLocalChar hat hd', count_eq_zero_of_isLocalChar hat ht']
    decide
  · intro c hc
    simp only [List.mem_append, List.mem_cons] at hc
    rcases hc with hc | hc | hc | hc | hc
    · exact allowed_of_isLocalChar (hl c hc)
    · subst hc; simp
    · exact allowed_of_isLocalChar (hd' c hc)
    · subst hc; simp
    · exact allowed_of_isLocalChar (ht' c hc)
  · intro hc
    simp only [List.mem_append, List.mem_cons] at hc
    rcases hc with hc | hc | hc | hc | hc
    · have := hl _ hc; rw [hsl] at this; cases this
    · exact absurd hc (by decide)
    · have := hd' _ hc; rw [hsl] at this; cases this
    · exact absurd hc (by decide)
    · have := ht' _ hc; rw [hsl] at this; cases this

/-- C10: a non-empty result of `extractEmail` has exactly one `@`, only
letters, digits and `._%+-@`, hence no `/`, and is neither `.` nor `..`;
and `extractEmail` applied to its own result returns that result. -/
theorem extractEmail_single_component (s : String) :
    (extractEmail s ≠ "" →
      (extractEmail s).data.count '@' = 1 ∧
      (∀ c ∈ (extractEmail s).data,
        isLetter c = true ∨ isDigit c = true ∨ c ∈ ['.', '_', '%', '+', '-', '@']) ∧
      '/' ∉ (extractEmail s).data ∧ extractEmail s ≠ "." ∧ extractEmail s ≠ "..") ∧
    extractEmail (extractEmail s) = extractEmail s := by
  cases h : findFrom emailRe s.data with
  | none =>
    have hr : extractEmail s = "" := by simp [extractEmail, FindString, h]
    rw [hr]
    exact ⟨fun hc => absurd rfl hc, by decide⟩
  | some m =>
    have hr : extractEmail s = String.mk m := by simp [extractEmail, FindString, h]
    obtain ⟨hm, _⟩ := findFrom_emailRe_some h
    obtain ⟨h1, h2, h3⟩ := isEmailAddress_chars hm
    rw [hr]
    refine ⟨fun _ => ⟨h1, h2, h3, ?_, ?_⟩, ?_⟩
    · intro hc
      have := congrArg String.data hc
      simp only at this
      rw [this] at h1
      exact absurd h1 (by decide)
    · intro hc
      have := congrArg String.data hc
      simp only at this
      rw [this] at h1
      exact absurd h1 (by decide)
    · simp [extractEmail, FindString, findFrom_idem h]

/-! ### File reservation -/

theorem osOpenFileExcl_fst (env : Faults) (db : List String) (w : World) (p : String) :
    (osOpenFileExcl env db w p).1 = true ↔ env.openFile p = false ∧ w.fileExists db p = false := by
  unfold osOpenFileExcl
  split <;> rename_i h
  · simp only [Bool.or_eq_true] at h
    constructor
    · intro hc; cases hc
    · rintro ⟨h1, h2⟩
      rcases h with h | h
      · rw [h1] at h; cases h
      · rw [h2] at h; cases h
  · simp only [Bool.or_eq_true, not_or, Bool.not_eq_true] at h
    simp [h.1, h.2]

theorem osOpenFileExcl_fst_emit (env : Faults) (db : List String) (w : World) (e : Event) (p : String) :
    (osOpenFileExcl env db (w.emit e) p).1 = (osOpenFileExcl env db w p).1 := by
  simp only [osOpenFileExcl, World.emit, World.fileExists]
  split <;> rfl

theorem osOpenFileExcl_true {env : Faults} {db : List String} {w : World} {p : String}
    (h : (osOpenFileExcl env db w p).1 = true) :
    osOpenFileExcl env db w p =
      (true, ⟨w.files ++ [(resolvePath p, "")], w.index, w.dbValid,
        w.log ++ [Event.openFile p true]⟩) := by
  obtain ⟨h1, h2⟩ := (osOpenFileExcl_fst env db w p).1 h
  simp [osOpenFileExcl, h1, h2]

theorem osOpenFileExcl_false {env : Faults} {db : List String} {w : World} {p : String}
    (h : (osOpenFileExcl env db w p).1 = false) :
    osOpenFileExcl env db w p = (false, w.emit (Event.openFile p false)) := by
  unfold osOpenFileExcl at h ⊢
  split
  · rfl
  · rename_i hc; simp [hc] at h

/-- The loop started at counter `ctr` with `1000 - ctr` iterations left. -/
theorem reserveLoop_spec (env : Faults) (db : List String) (dir ts : String) (fuel ctr : Nat) (w : World)
    (hfuel : ctr + fuel = 1000) (hpos : 0 < fuel) :
    (∃ c, ctr ≤ c ∧ c < 1000 ∧ (osOpenFileExcl env db w (bodyPath dir ts c)).1 = true ∧
      (∀ j, ctr ≤ j → j < c → (osOpenFileExcl env db w (bodyPath dir ts j)).1 = false) ∧
      reserveLoop env db dir ts fuel ctr w =
        (Reserved.created (bodyPath dir ts c),
          ⟨w.files ++ [(resolvePath (bodyPath dir ts c), "")], w.index, w.dbValid,
            w.log ++ ((List.range' ctr (c - ctr)).map
                (fun j => Event.openFile (bodyPath dir ts j) false)
              ++ [Event.openFile (bodyPath dir ts c) true])⟩)) ∨
    ((∀ c, ctr ≤ c → c < 1000 → (osOpenFileExcl env db w (bodyPath dir ts c)).1 = false) ∧
      reserveLoop env db dir ts fuel ctr w =
        (Reserved.fatal (bodyPath dir ts 999),
          ⟨w.files, w.index, w.dbValid,
            w.log ++ (List.range' ctr (1000 - ctr)).map
              (fun j => Event.openFile (bodyPath dir ts j) false)⟩)) := by
  induction fuel generalizing ctr w with
  | zero => omega
  | succ fuel ih =>
    cases hres : (osOpenFileExcl env db w (bodyPath dir ts ctr)).1 with
    | true =>
      left
      refine ⟨ctr, le_refl _, by omega, hres, fun j h1 h2 => by omega, ?_⟩
      simp [reserveLoop, osOpenFileExcl_true hres]
    | false =>
      have hstep := osOpenFileExcl_false hres
      by_cases hlast : ctr + 1 > 999
      · right
        have hc : ctr = 999 := by omega
        subst hc
        refine ⟨fun c h1 h2 => ?_, ?_⟩
        · have : c = 999 := by omega
          subst this; exact hres
        · simp [reserveLoop, hstep, World.emit]
      · have hrec : reserveLoop env db dir ts (fuel + 1) ctr w =
            reserveLoop env db dir ts fuel (ctr + 1)
              (w.emit (Event.openFile (bodyPath dir ts ctr) false)) := by
          simp only [reserveLoop, hstep, if_neg hlast]
        rw [hrec]
        rcases ih (ctr + 1) (w.emit (Event.openFile (bodyPath dir ts ctr) false))
            (by omega) (by omega) with ⟨c, h1, h2, h3, h4, h5⟩ | ⟨h1, h2⟩
        · left
          rw [osOpenFileExcl_fst_emit] at h3
          refine ⟨c, by omega, h2, h3, fun j hj1 hj2 => ?_, ?_⟩
          · rcases Nat.eq_or_lt_of_le hj1 with heq | hlt
            · subst heq; exact hres
            · have := h4 j (by omega) hj2
              rwa [osOpenFileExcl_fst_emit] at this
          · rw [h5]
            have : c - ctr = (c - (ctr + 1)) + 1 := by omega
            rw [this, List.range'_succ]
            simp [World.emit]
        · right
          refine ⟨fun c hc1 hc2 => ?_, ?_⟩
          · rcases Nat.eq_or_lt_of_le hc1 with heq | hlt
            · subst heq; exact hres
            · have := h1 c (by omega) hc2
              rwa [osOpenFileExcl_fst_emit] at this
          · rw [h2]
            have : 1000 - ctr = (1000 - (ctr + 1)) + 1 := by omega
            rw [this, List.range'_succ]
            simp [World.emit]

/-- World after the reservation succeeded at counter `c`: `c` failed
attempts, one successful attempt, and the new empty file. -/
theorem reserveBodyFile_cases (env : Faults) (db : List String) (dir ts : String) (w : World) :
    (∃ c, c < 1000 ∧ (osOpenFileExcl env db w (bodyPath dir ts c)).1 = true ∧
        (∀ j, j < c → (osOpenFileExcl env db w (bodyPath dir ts j)).1 = false) ∧
        reserveBodyFile env db dir ts w =
          (Reserved.created (bodyPath dir ts c),
            ⟨w.files ++ [(resolvePath (bodyPath dir ts c), "")], w.index, w.dbValid,
              w.log ++ ((List.range c).map
                  (fun j => Event.openFile (bodyPath dir ts j) false)
                ++ [Event.openFile (bodyPath dir ts c) true])⟩)) ∨
      ((∀ c, c < 1000 → (osOpenFileExcl env db w (bodyPath dir ts c)).1 = false) ∧
        reserveBodyFile env db dir ts w =
          (Reserved.fatal (bodyPath dir ts 999),
            ⟨w.files, w.index, w.dbValid,
              w.log ++ (List.range 1000).map
                (fun j => Event.openFile (bodyPath dir ts j) false)⟩)) := by
  have key := reserveLoop_spec env db dir ts 1000 0 w (by omega) (by omega)
  rcases key with ⟨c, _, h2, h3, h4, h5⟩ | ⟨h1, h2⟩
  · left
    refine ⟨c, h2, h3, fun j hj => h4 j (Nat.zero_le _) hj, ?_⟩
    rw [reserveBodyFile, h5, List.range_eq_range']
    simp
  · right
    refine ⟨fun c hc => h1 c (Nat.zero_le _) hc, ?_⟩
    rw [reserveBodyFile, h2, List.range_eq_range']

/-- C4: the reservation tries the counters 0, 1, 2, ... in increasing
order; it returns the path of the least counter below 1000 at which the
exclusive creation succeeds (creation succeeds at a path exactly when there
is no fault and no file at it), after one attempt per counter up to that
one; it is fatal exactly when the creation fails at every counter 0..999,
after exactly 1000 attempts; the bound of 1000 iterations is never used
up. -/
theorem reserveBodyFile_least_counter (env : Faults) (db : List String) (dir ts : String) (w : World) :
    ((∃ c, c < 1000 ∧ (osOpenFileExcl env db w (bodyPath dir ts c)).1 = true ∧
        (∀ j, j < c → (osOpenFileExcl env db w (bodyPath dir ts j)).1 = false) ∧
        reserveBodyFile env db dir ts w =
          (Reserved.created (bodyPath dir ts c),
            ⟨w.files ++ [(resolvePath (bodyPath dir ts c), "")], w.index, w.dbValid,
              w.log ++ ((List.range c).map
                  (fun j => Event.openFile (bodyPath dir ts j) false)
                ++ [Event.openFile (bodyPath dir ts c) true])⟩)) ∨
      ((∀ c, c < 1000 → (osOpenFileExcl env db w (bodyPath dir ts c)).1 = false) ∧
        reserveBodyFile env db dir ts w =
          (Reserved.fatal (bodyPath dir ts 999),
            ⟨w.files, w.index, w.dbValid,
              w.log ++ (List.range 1000).map
                (fun j => Event.openFile (bodyPath dir ts j) false)⟩))) ∧
    (∀ p, (osOpenFileExcl env db w p).1 = true ↔
      env.openFile p = false ∧ w.fileExists db p = false) ∧
    (reserveBodyFile env db dir ts w).1 ≠ Reserved.unfinished := by
  refine ⟨reserveBodyFile_cases env db dir ts w, osOpenFileExcl_fst env db w, ?_⟩
  rcases reserveBodyFile_cases env db dir ts w with ⟨c, _, _, _, h5⟩ | ⟨_, h2⟩
  · rw [h5]; simp
  · rw [h2]; simp

/-! ### Rendering of the counter -/

set_option maxRecDepth 100000 in
theorem zeroPad_three_data : ∀ c < 1000, (zeroPad 3 c).data =
    [Nat.digitChar (c / 100), Nat.digitChar (c / 10 % 10), Nat.digitChar (c % 10)] := by
  decide

theorem zeroPad_three {c : Nat} (h : c < 1000) : zeroPad 3 c =
    String.mk [Nat.digitChar (c / 100), Nat.digitChar (c / 10 % 10), Nat.digitChar (c % 10)] :=
  String.ext (zeroPad_three_data c h)

theorem zeroPad_three_length {c : Nat} (h : c < 1000) : (zeroPad 3 c).length = 3 := by
  rw [zeroPad_three h]; rfl

theorem digitChar_inj : ∀ a < 10, ∀ b < 10, Nat.digitChar a = Nat.digitChar b → a = b := by
  decide

theorem zeroPad_three_inj {c d : Nat} (hc : c < 1000) (hd : d < 1000)
    (h : zeroPad 3 c = zeroPad 3 d) : c = d := by
  have h' := congrArg String.data h
  rw [zeroPad_three_data c hc, zeroPad_three_data d hd] at h'
  simp only [List.cons.injEq, and_true] at h'
  obtain ⟨h1, h2, h3⟩ := h'
  have e1 := digitChar_inj _ (by omega) _ (by omega) h1
  have e2 := digitChar_inj _ (Nat.mod_lt _ (by omega)) _ (Nat.mod_lt _ (by omega)) h2
  have e3 := digitChar_inj _ (Nat.mod_lt _ (by omega)) _ (Nat.mod_lt _ (by omega)) h3
  omega

theorem string_append_left_cancel {a b c : String} (h : a ++ b = a ++ c) : b = c := by
  apply String.ext
  have := congrArg String.data h
  simpa using this

/-! ### Decimal digits -/

theorem toDigitsCore_mem (fuel n : Nat) (ds : List Char) (c : Char)
    (h : c ∈ Nat.toDigitsCore 10 fuel n ds) : c ∈ ds ∨ ∃ k, k < 10 ∧ c = Nat.digitChar k := by
  induction fuel generalizing n ds with
  | zero => left; simpa [Nat.toDigitsCore] using h
  | succ fuel ih =>
    simp only [Nat.toDigitsCore] at h
    split at h
    · rcases List.mem_cons.1 h with h | h
      · right; exact ⟨n % 10, Nat.mod_lt _ (by omega), h⟩
      · left; exact h
    · rcases ih _ _ h with h | h
      · rcases List.mem_cons.1 h with h | h
        · right; exact ⟨n % 10, Nat.mod_lt _ (by omega), h⟩
        · left; exact h
      · right; exact h

theorem digitChar_ne_slash : ∀ k < 10, Nat.digitChar k ≠ '/' := by decide

theorem zeroPad_no_slash (width n : Nat) : '/' ∉ (zeroPad width n).data := by
  intro h
  simp only [zeroPad, List.mem_append, List.mem_replicate] at h
  rcases h with ⟨_, h⟩ | h
  · exact absurd h (by decide)
  · rcases toDigitsCore_mem _ _ _ _ h with h | ⟨k, hk, h⟩
    · simp at h
    · exact digitChar_ne_slash k hk h.symm

theorem zeroPad_length_ge (width n : Nat) : width ≤ (zeroPad width n).length := by
  simp only [zeroPad, String.length, List.length_append, List.length_replicate]
  omega

theorem toDigitsCore_of_lt {n : Nat} (h : n < 10) (fuel : Nat) (ds : List Char) :
    Nat.toDigitsCore 10 (fuel + 1) n ds = Nat.digitChar n :: ds := by
  simp only [Nat.toDigitsCore]
  rw [if_pos (by omega), Nat.mod_eq_of_lt h]

theorem toDigitsCore_step {n : Nat} (h : 10 ≤ n) (fuel : Nat) (ds : List Char) :
    Nat.toDigitsCore 10 (fuel + 1) n ds =
      Nat.toDigitsCore 10 fuel (n / 10) (Nat.digitChar (n % 10) :: ds) := by
  simp only [Nat.toDigitsCore]
  rw [if_neg (by omega)]

theorem zeroPad_two_data : ∀ n < 100, (zeroPad 2 n).data =
    [Nat.digitChar (n / 10), Nat.digitChar (n % 10)] := by
  decide

/-- Four digits for a year below 10000. -/
theorem zeroPad_four_data {n : Nat} (h : n < 10000) : (zeroPad 4 n).data =
    [Nat.digitChar (n / 1000), Nat.digitChar (n / 100 % 10), Nat.digitChar (n / 10 % 10),
      Nat.digitChar (n % 10)] := by
  have d0 : Nat.digitChar 0 = '0' := rfl
  simp only [zeroPad, Nat.toDigits]
  by_cases h1 : n < 10
  · rw [toDigitsCore_of_lt h1]
    have e1 : n / 1000 = 0 := by omega
    have e2 : n / 100 % 10 = 0 := by omega
    have e3 : n / 10 % 10 = 0 := by omega
    have e4 : n % 10 = n := by omega
    rw [e1, e2, e3, e4, d0]
    rfl
  · by_cases h2 : n < 100
    · obtain ⟨f, hf⟩ : ∃ f, n + 1 = f + 2 := ⟨n - 1, by omega⟩
      rw [hf, toDigitsCore_step (by omega), toDigitsCore_of_lt (by omega)]
      have e1 : n / 1000 = 0 := by omega
      have e2 : n / 100 % 10 = 0 := by omega
      have e3 : n / 10 % 10 = n / 10 := by omega
      rw [e1, e2, e3, d0]
      rfl
    · by_cases h3 : n < 1000
      · obtain ⟨f, hf⟩ : ∃ f, n + 1 = f + 3 := ⟨n - 2, by omega⟩
        rw [hf, toDigitsCore_step (by omega), toDigitsCore_step (by omega),
          toDigitsCore_of_lt (by omega)]
        have e1 : n / 1000 = 0 := by omega
        have e2 : n / 100 % 10 = n / 10 / 10 := by omega
        rw [e1, e2, d0]
        rfl
      · obtain ⟨f, hf⟩ : ∃ f, n + 1 = f + 4 := ⟨n - 3, by omega⟩
        rw [hf, toDigitsCore_step (by omega), toDigitsCore_step (by omega),
          toDigitsCore_step (by omega), toDigitsCore_of_lt (by omega)]
        have e1 : n / 1000 = n / 10 / 10 / 10 := by omega
        have e2 : n / 100 % 10 = n / 10 / 10 % 10 := by omega
        rw [e1, e2]
        rfl

/-! ### Path resolution -/

theorem splitSlash_ne_nil (cs : List Char) : splitSlash cs ≠ [] := by
  cases cs with
  | nil => simp [splitSlash]
  | cons c cs =>
    simp only [splitSlash]
    split
    · simp
    · split <;> simp

theorem splitSlash_append (xs ns : List Char) :
    splitSlash (xs ++ '/' :: ns) = splitSlash xs ++ splitSlash ns := by
  induction xs with
  | nil => simp [splitSlash]
  | cons c xs ih =>
    have e : (c :: xs) ++ '/' :: ns = c :: (xs ++ '/' :: ns) := rfl
    rw [e]
    simp only [splitSlash]
    split
    · rw [ih]; simp
    · rw [ih]
      cases hs : splitSlash xs with
      | nil => exact absurd hs (splitSlash_ne_nil xs)
      | cons h t => simp

theorem splitSlash_of_no_slash {ns : List Char} (h : '/' ∉ ns) : splitSlash ns = [ns] := by
  induction ns with
  | nil => rfl
  | cons c ns ih =>
    simp only [List.mem_cons, not_or] at h
    simp only [splitSlash]
    rw [if_neg (fun hc => h.1 hc.symm), ih h.2]

theorem head_append_slash (x n : String) :
    (x ++ "/" ++ n).data.head? = (x ++ "/").data.head? := by
  simp only [String.data_append]
  cases x.data with
  | nil => rfl
  | cons c cs => rfl

/-- Appending `/` and a name without `/` to a path resolves one more
component. -/
theorem resolvePath_append_name (x n : String) (h : '/' ∉ n.data) :
    resolvePath (x ++ "/" ++ n) = resolveStep (resolvePath (x ++ "/")) n := by
  have hd1 : (x ++ "/" ++ n).data = x.data ++ '/' :: n.data := by
    simp [String.data_append]
  have hd2 : (x ++ "/").data = x.data ++ '/' :: [] := by
    simp [String.data_append]
  unfold resolvePath
  rw [head_append_slash, hd1, hd2, splitSlash_append, splitSlash_append,
    splitSlash_of_no_slash h]
  simp only [List.map_append, List.foldl_append, List.map_cons, List.map_nil,
    List.foldl_cons, List.foldl_nil, splitSlash]
  have : resolveStep (List.foldl resolveStep
      (if (x.data ++ ['/']).head? = some '/' then ["/"] else [])
      (List.map String.mk (splitSlash x.data))) (String.mk []) =
      List.foldl resolveStep (if (x.data ++ ['/']).head? = some '/' then ["/"] else [])
      (List.map String.mk (splitSlash x.data)) := by
    unfold resolveStep
    rw [if_pos rfl]
  rw [this]

theorem resolvePath_append_slash (y : String) (h : y.data ≠ []) :
    resolvePath (y ++ "/") = resolvePath y := by
  have hd2 : (y ++ "/").data = y.data ++ '/' :: [] := by
    simp [String.data_append]
  have hh : (y.data ++ ['/']).head? = y.data.head? := by
    cases hy : y.data with
    | nil => exact absurd hy h
    | cons c cs => rfl
  unfold resolvePath
  rw [hd2, splitSlash_append, hh]
  simp only [List.map_append, List.foldl_append, List.map_cons, List.map_nil,
    List.foldl_cons, List.foldl_nil, splitSlash]
  unfold resolveStep
  rw [if_pos rfl]

theorem plainName_iff (n : String) :
    plainName n = true ↔ n ≠ "" ∧ n ≠ "." ∧ n ≠ ".." ∧ '/' ∉ n.data := by
  simp [plainName, and_assoc]

theorem resolveStep_plain (stack : List String) {n : String} (h : plainName n = true) :
    resolveStep stack n = stack ++ [n] := by
  obtain ⟨h1, h2, h3, _⟩ := (plainName_iff n).1 h
  simp [resolveStep, h1, h2, h3]

theorem resolveStep_empty (stack : List String) : resolveStep stack "" = stack := by
  simp [resolveStep]

theorem plainName_of_length {n : String} (hs : '/' ∉ n.data) (hl : 3 ≤ n.length) :
    plainName n = true := by
  rw [plainName_iff]
  refine ⟨?_, ?_, ?_, hs⟩
  · intro h; rw [h] at hl; exact absurd hl (by decide)
  · intro h; rw [h] at hl; exact absurd hl (by decide)
  · intro h; rw [h] at hl; exact absurd hl (by decide)

theorem data_ne_nil_of_append_slash (x n : String) : (x ++ "/" ++ n).data ≠ [] := by
  simp [String.data_append]

/-- Resolution of `x/n` and of `x/n/` for a plain name `n`. -/
theorem resolvePath_plain (x : String) {n : String} (h : plainName n = true) :
    resolvePath (x ++ "/" ++ n) = resolvePath (x ++ "/") ++ [n] ∧
    resolvePath (x ++ "/" ++ n ++ "/") = resolvePath (x ++ "/") ++ [n] := by
  have h1 : resolvePath (x ++ "/" ++ n) = resolvePath (x ++ "/") ++ [n] := by
    rw [resolvePath_append_name x n ((plainName_iff n).1 h).2.2.2, resolveStep_plain _ h]
  exact ⟨h1, by rw [resolvePath_append_slash _ (data_ne_nil_of_append_slash x n), h1]⟩

/-! ### Effect of the file operations -/

theorem any_setContent (files : List (List String × String)) (p : List String) (c : String)
    (q : List String) :
    (setContent files p c).any (fun e => e.1 == q) = files.any (fun e => e.1 == q) := by
  induction files with
  | nil => rfl
  | cons e files ih =>
    simp only [setContent, List.map_cons, List.any_cons] at ih ⊢
    rw [ih]
    congr 1
    split <;> rfl

theorem find_setContent_ne (files : List (List String × String)) {p q : List String}
    (c : String) (h : p ≠ q) :
    ((setContent files p c).find? (fun e => e.1 == q)).map (fun e => e.2) =
      (files.find? (fun e => e.1 == q)).map (fun e => e.2) := by
  induction files with
  | nil => rfl
  | cons e files ih =>
    simp only [setContent, List.map_cons] at ih ⊢
    by_cases he : e.1 = p
    · have hq' : (p == q) = false := beq_false_of_ne h
      simp only [he, beq_self_eq_true, if_true, List.find?_cons]
      rw [hq']
      have hq : (e.1 == q) = false := by rw [he]; exact hq'
      simp only [hq]
      exact ih
    · have hp : (e.1 == p) = false := beq_false_of_ne he
      simp only [hp, Bool.false_eq_true, if_false, List.find?_cons]
      cases hq : (e.1 == q) with
      | true => rfl
      | false => exact ih

theorem find_setContent_eq (files : List (List String × String)) (p : List String)
    (c : String) (h : files.any (fun e => e.1 == p) = true) :
    ((setContent files p c).find? (fun e => e.1 == p)).map (fun e => e.2) = some c := by
  induction files with
  | nil => simp at h
  | cons e files ih =>
    simp only [setContent, List.map_cons] at ih ⊢
    by_cases he : e.1 = p
    · simp [he]
    · have hp : (e.1 == p) = false := beq_false_of_ne he
      simp only [List.any_cons, hp, Bool.false_or] at h
      simp only [hp, Bool.false_eq_true, if_false, List.find?_cons]
      exact ih h

theorem find_append_of_ne (files : List (List String × String)) (e : List String × String)
    (q : List String) (h : e.1 ≠ q) :
    (files ++ [e]).find? (fun x => x.1 == q) = files.find? (fun x => x.1 == q) := by
  induction files with
  | nil => simp [List.find?_cons, beq_false_of_ne h]
  | cons x files ih =>
    simp only [List.cons_append, List.find?_cons]
    cases hx : (x.1 == q) with
    | true => rfl
    | false => exact ih

theorem find_append_new (files : List (List String × String)) (p : List String) (c : String)
    (h : files.any (fun x => x.1 == p) = false) :
    ((files ++ [(p, c)]).find? (fun x => x.1 == p)).map (fun e => e.2) = some c := by
  induction files with
  | nil => simp [List.find?_cons]
  | cons x files ih =>
    simp only [List.any_cons, Bool.or_eq_false_iff] at h
    simp only [List.cons_append, List.find?_cons, h.1]
    exact ih h.2

theorem fileExists_false_iff (w : World) (db : List String) (p : String) :
    w.fileExists db p = false ↔
      resolvePath p ≠ db ∧ w.files.any (fun e => e.1 == resolvePath p) = false := by
  simp only [World.fileExists, Bool.or_eq_false_iff, beq_eq_false_iff_ne]

@[simp] theorem emit_files (w : World) (e : Event) : (w.emit e).files = w.files := rfl
@[simp] theorem emit_index (w : World) (e : Event) : (w.emit e).index = w.index := rfl
@[simp] theorem emit_dbValid (w : World) (e : Event) : (w.emit e).dbValid = w.dbValid := rfl
@[simp] theorem emit_log (w : World) (e : Event) : (w.emit e).log = w.log ++ [e] := rfl
@[simp] theorem emit_fileExists (w : World) (e : Event) (db : List String) (q : String) :
    (w.emit e).fileExists db q = w.fileExists db q := rfl
@[simp] theorem emit_content (w : World) (e : Event) (q : String) :
    (w.emit e).content q = w.content q := rfl
@[simp] theorem emit_indexed (w : World) (e : Event) (id : String) :
    (w.emit e).indexed id = w.indexed id := rfl

@[simp] theorem osMkdirAll_files (env : Faults) (w : World) (p : String) :
    (osMkdirAll env w p).files = w.files := rfl
@[simp] theorem osMkdirAll_index (env : Faults) (w : World) (p : String) :
    (osMkdirAll env w p).index = w.index := rfl
@[simp] theorem osMkdirAll_dbValid (env : Faults) (w : World) (p : String) :
    (osMkdirAll env w p).dbValid = w.dbValid := rfl
@[simp] theorem osMkdirAll_fileExists (env : Faults) (w : World) (p : String)
    (db : List String) (q : String) :
    (osMkdirAll env w p).fileExists db q = w.fileExists db q := rfl
@[simp] theorem osMkdirAll_content (env : Faults) (w : World) (p q : String) :
    (osMkdirAll env w p).content q = w.content q := rfl
@[simp] theorem osMkdirAll_indexed (env : Faults) (w : World) (p id : String) :
    (osMkdirAll env w p).indexed id = w.indexed id := rfl

@[simp] theorem fmtFprint_index (env : Faults) (w : World) (p c : String) :
    (fmtFprint env w p c).index = w.index := by
  unfold fmtFprint; split <;> rfl

@[simp] theorem fmtFprint_dbValid (env : Faults) (w : World) (p c : String) :
    (fmtFprint env w p c).dbValid = w.dbValid := by
  unfold fmtFprint; split <;> rfl

@[simp] theorem fmtFprint_fileExists (env : Faults) (w : World) (p c : String)
    (db : List String) (q : String) :
    (fmtFprint env w p c).fileExists db q = w.fileExists db q := by
  unfold fmtFprint; split
  · rfl
  · simp only [World.fileExists]
    rw [any_setContent]

theorem fmtFprint_content_ne (env : Faults) (w : World) {p q : String} (c : String)
    (h : resolvePath p ≠ resolvePath q) : (fmtFprint env w p c).content q = w.content q := by
  unfold fmtFprint; split
  · rfl
  · exact find_setContent_ne w.files c h

theorem fmtFprint_content_eq (env : Faults) (w : World) (p c : String)
    (hf : env.fprint p = false) (h : w.files.any (fun e => e.1 == resolvePath p) = true) :
    (fmtFprint env w p c).content p = some c := by
  unfold fmtFprint
  rw [hf]
  exact find_setContent_eq w.files _ c h

theorem fmtFprint_log (env : Faults) (w : World) (p c : String) :
    (fmtFprint env w p c).log = w.log ++ [Event.fprint p c (!env.fprint p)] := by
  unfold fmtFprint; split <;> rename_i h
  · simp [h]
  · simp [h]

theorem ioutilWriteFile_log (env : Faults) (db : List String) (w : World) (p d : String) :
    (ioutilWriteFile env db w p d).log =
      w.log ++ [Event.writeFile p d (!env.writeFile p)] := by
  unfold ioutilWriteFile; split <;> rename_i h
  · simp [h]
  · split <;> simp [h]

/-- A write that does not resolve to the database file leaves the index
as it is. -/
theorem ioutilWriteFile_index_ne (env : Faults) (db : List String) (w : World)
    (p d : String) (h : resolvePath p ≠ db) :
    (ioutilWriteFile env db w p d).index = w.index ∧
    (ioutilWriteFile env db w p d).dbValid = w.dbValid := by
  unfold ioutilWriteFile; split
  · exact ⟨rfl, rfl⟩
  · rw [if_neg (by simpa using h)]
    exact ⟨rfl, rfl⟩

theorem ioutilWriteFile_any_ne (env : Faults) (db : List String) (w : World)
    (p d : String) (q : List String) (h : resolvePath p ≠ q) :
    (ioutilWriteFile env db w p d).files.any (fun e => e.1 == q) =
      w.files.any (fun e => e.1 == q) := by
  unfold ioutilWriteFile; split
  · rfl
  · split
    · rfl
    · simp only
      split
      · exact any_setContent w.files _ d q
      · simp [beq_false_of_ne h]

theorem ioutilWriteFile_any_mono (env : Faults) (db : List String) (w : World)
    (p d : String) (q : List String) (h : w.files.any (fun e => e.1 == q) = true) :
    (ioutilWriteFile env db w p d).files.any (fun e => e.1 == q) = true := by
  unfold ioutilWriteFile; split
  · exact h
  · split
    · exact h
    · simp only
      split
      · rw [any_setContent]; exact h
      · rw [List.any_append, h]; rfl

theorem ioutilWriteFile_fileExists_ne (env : Faults) (db : List String) (w : World)
    (p d q : String) (h : resolvePath p ≠ resolvePath q) :
    (ioutilWriteFile env db w p d).fileExists db q = w.fileExists db q := by
  simp only [World.fileExists, ioutilWriteFile_any_ne env db w p d _ h]

theorem ioutilWriteFile_fileExists_mono (env : Faults) (db : List String) (w : World)
    (p d q : String) (h : w.fileExists db q = true) :
    (ioutilWriteFile env db w p d).fileExists db q = true := by
  simp only [World.fileExists, Bool.or_eq_true] at h ⊢
  rcases h with h | h
  · exact Or.inl h
  · exact Or.inr (ioutilWriteFile_any_mono env db w p d _ h)

theorem ioutilWriteFile_fileExists_self (env : Faults) (db : List String) (w : World)
    (p d : String) (hf : env.writeFile p = false) :
    (ioutilWriteFile env db w p d).fileExists db p = true := by
  unfold ioutilWriteFile
  rw [hf]
  simp only [World.fileExists, Bool.false_eq_true, if_false, Bool.or_eq_true]
  by_cases hdb : resolvePath p = db
  · left; simp [hdb]
  · right
    rw [if_neg (by simpa using hdb)]
    simp only
    split
    · rename_i h; rw [any_setContent]; exact h
    · simp

theorem ioutilWriteFile_content_ne (env : Faults) (db : List String) (w : World)
    (p d q : String) (h : resolvePath p ≠ resolvePath q) :
    (ioutilWriteFile env db w p d).content q = w.content q := by
  unfold ioutilWriteFile; split
  · rfl
  · split
    · rfl
    · simp only [World.content]
      split
      · exact find_setContent_ne w.files d h
      · rw [find_append_of_ne w.files (resolvePath p, d) _ h]

/-! ### Paths of a message -/

theorem no_slash_append {a b : String} (ha : '/' ∉ a.data) (hb : '/' ∉ b.data) :
    '/' ∉ (a ++ b).data := by
  simp only [String.data_append, List.mem_append, not_or]
  exact ⟨ha, hb⟩

theorem formatDate_plain (t : Time) : plainName t.Format20060102 = true := by
  apply plainName_of_length
  · exact no_slash_append (no_slash_append (zeroPad_no_slash _ _) (zeroPad_no_slash _ _))
      (zeroPad_no_slash _ _)
  · simp only [Time.Format20060102, String.length_append]
    have := zeroPad_length_ge 4 t.year
    omega

theorem formatStamp_no_slash (t : Time) : '/' ∉ t.FormatStamp.data := by
  apply no_slash_append
  · apply no_slash_append
    · exact no_slash_append (no_slash_append (zeroPad_no_slash _ _) (zeroPad_no_slash _ _))
        (zeroPad_no_slash _ _)
    · decide
  · exact no_slash_append (no_slash_append (zeroPad_no_slash _ _) (zeroPad_no_slash _ _))
      (zeroPad_no_slash _ _)

theorem isEmailAddress_length {m : List Char} (h : IsEmailAddress m) : 3 ≤ m.length := by
  obtain ⟨l, d, t, e, _, _, _, _, ht, _⟩ := h
  rw [e]
  simp only [List.length_append, List.length_cons]
  omega

/-- The sender directory is missing or a plain name. -/
theorem extractEmail_plain (s : String) :
    extractEmail s = "" ∨ plainName (extractEmail s) = true := by
  cases h : findFrom emailRe s.data with
  | none => left; simp [extractEmail, FindString, h]
  | some m =>
    right
    have hr : extractEmail s = String.mk m := by simp [extractEmail, FindString, h]
    obtain ⟨hm, _⟩ := findFrom_emailRe_some h
    rw [hr]
    exact plainName_of_length (isEmailAddress_chars hm).2.2 (isEmailAddress_length hm)

/-- Last component of the body path. -/
theorem bodyName_plain {ts : String} (hts : '/' ∉ ts.data) (c : Nat) :
    plainName (ts ++ "." ++ zeroPad 3 c) = true ∧
    plainName (ts ++ "." ++ zeroPad 3 c ++ ".d") = true := by
  have h1 : '/' ∉ (ts ++ "." ++ zeroPad 3 c).data :=
    no_slash_append (no_slash_append hts (by decide)) (zeroPad_no_slash _ _)
  have h2 : 3 ≤ (ts ++ "." ++ zeroPad 3 c).length := by
    simp only [String.length_append]
    have := zeroPad_length_ge 3 c
    omega
  refine ⟨plainName_of_length h1 h2, plainName_of_length (no_slash_append h1 (by decide)) ?_⟩
  rw [String.length_append]
  omega

theorem bodyPath_assoc (dir ts : String) (c : Nat) :
    bodyPath dir ts c = dir ++ "/" ++ (ts ++ "." ++ zeroPad 3 c) := by
  apply String.ext
  simp [bodyPath, String.data_append]

theorem attDir_assoc (dir ts : String) (c : Nat) :
    bodyPath dir ts c ++ ".d" = dir ++ "/" ++ (ts ++ "." ++ zeroPad 3 c ++ ".d") := by
  apply String.ext
  simp [bodyPath, String.data_append]

/-- Resolution of a body path and of the attachment paths below it. -/
theorem resolvePath_bodyPath (dir : String) {ts : String} (hts : '/' ∉ ts.data) (c : Nat) :
    resolvePath (bodyPath dir ts c) =
      resolvePath (dir ++ "/") ++ [ts ++ "." ++ zeroPad 3 c] ∧
    ∀ n, plainName n = true →
      resolvePath (bodyPath dir ts c ++ ".d" ++ "/" ++ n) =
        resolvePath (dir ++ "/") ++ [ts ++ "." ++ zeroPad 3 c ++ ".d", n] := by
  obtain ⟨hb, hd⟩ := bodyName_plain hts c
  constructor
  · rw [bodyPath_assoc]
    exact (resolvePath_plain dir hb).1
  · intro n hn
    rw [(resolvePath_plain (bodyPath dir ts c ++ ".d") hn).1, attDir_assoc,
      (resolvePath_plain dir hd).2]
    simp

theorem indexPath_eq (basedir : String) :
    indexPath basedir = resolvePath (basedir ++ "/") ++ ["index.sqlite.db"] := by
  have e : basedir ++ "/index.sqlite.db" = basedir ++ "/" ++ "index.sqlite.db" := by
    apply String.ext
    simp [String.data_append]
  rw [indexPath, e]
  exact (resolvePath_plain basedir (by decide)).1

theorem messageDir_length (basedir : String) (ii : Message) :
    (indexPath basedir).length ≤ (resolvePath (messageDir basedir ii ++ "/")).length := by
  rw [indexPath_eq]
  have hdate := (resolvePath_plain (basedir ++ "/" ++ extractEmail ii.GetFrom)
    (formatDate_plain ii.GetDate)).2
  have hdir : messageDir basedir ii ++ "/" =
      basedir ++ "/" ++ extractEmail ii.GetFrom ++ "/" ++ ii.GetDate.Format20060102 ++ "/" := rfl
  rw [hdir, hdate]
  rcases extractEmail_plain ii.GetFrom with h | h
  · rw [h]
    have e1 : resolvePath (basedir ++ "/" ++ "" ++ "/") = resolvePath (basedir ++ "/") := by
      rw [resolvePath_append_slash _ (data_ne_nil_of_append_slash basedir ""),
        resolvePath_append_name basedir "" (by decide), resolveStep_empty]
    rw [e1]
    simp
  · rw [(resolvePath_plain basedir h).2]
    simp

/-- The body paths of a message and the attachment paths with plain names
resolve to pairwise different files, none of them the database file. -/
theorem message_paths (basedir : String) (ii : Message) :
    (∀ c, resolvePath (bodyPathOf basedir ii c) ≠ indexPath basedir) ∧
    (∀ c n, plainName n = true →
      resolvePath (bodyPathOf basedir ii c ++ ".d" ++ "/" ++ n) ≠ indexPath basedir) ∧
    (∀ c d n, plainName n = true →
      resolvePath (bodyPathOf basedir ii c ++ ".d" ++ "/" ++ n) ≠
        resolvePath (bodyPathOf basedir ii d)) ∧
    (∀ c d, c < 1000 → d < 1000 → c ≠ d →
      resolvePath (bodyPathOf basedir ii c) ≠ resolvePath (bodyPathOf basedir ii d)) := by
  have hlen := messageDir_length basedir ii
  have hb := fun c => (resolvePath_bodyPath (messageDir basedir ii)
    (formatStamp_no_slash ii.GetDate) c).1
  have ha := fun c => (resolvePath_bodyPath (messageDir basedir ii)
    (formatStamp_no_slash ii.GetDate) c).2
  refine ⟨?_, ?_, ?_, ?_⟩
  · intro c h
    have := congrArg List.length h
    rw [bodyPathOf, hb c] at this
    simp only [List.length_append, List.length_cons, List.length_nil] at this
    omega
  · intro c n hn h
    have := congrArg List.length h
    rw [bodyPathOf, ha c n hn] at this
    simp only [List.length_append, List.length_cons, List.length_nil] at this
    omega
  · intro c d n hn h
    have := congrArg List.length h
    rw [bodyPathOf, bodyPathOf, ha c n hn, hb d] at this
    simp only [List.length_append, List.length_cons, List.length_nil] at this
    omega
  · intro c d hc hd hne h
    rw [bodyPathOf, bodyPathOf, hb c, hb d] at h
    have h2 := List.append_cancel_left h
    simp only [List.cons.injEq, and_true] at h2
    exact hne (zeroPad_three_inj hc hd (string_append_left_cancel h2))

/-! ### Body and attachments -/

@[simp] theorem writeBody_index (env : Faults) (w : World) (fname : String) (ii : Message) :
    (writeBody env w fname ii).index = w.index := by
  unfold writeBody; split
  · simp
  · split <;> simp

@[simp] theorem writeBody_dbValid (env : Faults) (w : World) (fname : String) (ii : Message) :
    (writeBody env w fname ii).dbValid = w.dbValid := by
  unfold writeBody; split
  · simp
  · split <;> simp

@[simp] theorem writeBody_fileExists (env : Faults) (w : World) (fname : String)
    (ii : Message) (db : List String) (q : String) :
    (writeBody env w fname ii).fileExists db q = w.fileExists db q := by
  unfold writeBody; split
  · simp
  · split <;> simp

theorem writeBody_content_ne (env : Faults) (w : World) {fname q : String} (ii : Message)
    (h : resolvePath fname ≠ resolvePath q) :
    (writeBody env w fname ii).content q = w.content q := by
  unfold writeBody; split
  · exact fmtFprint_content_ne env w _ h
  · split
    · exact fmtFprint_content_ne env w _ h
    · rfl

theorem writeBody_log (env : Faults) (w : World) (fname : String) (ii : Message) :
    (writeBody env w fname ii).log = w.log ++ bodyEvents env fname ii := by
  unfold writeBody bodyEvents; split
  · exact fmtFprint_log env w _ _
  · split
    · exact fmtFprint_log env w _ _
    · simp

/-- Content of a freshly created body file after lines 151-155. -/
theorem writeBody_content_eq (env : Faults) (w : World) (fname : String) (ii : Message)
    (hf : env.fprint fname = false) (hnew : w.content fname = some "") :
    (writeBody env w fname ii).content fname = some (bodyContent ii) := by
  have hex : w.files.any (fun e => e.1 == resolvePath fname) = true := by
    simp only [World.content, Option.map_eq_some'] at hnew
    obtain ⟨e, he, _⟩ := hnew
    simp only [List.any_eq_true]
    exact ⟨e, List.mem_of_find?_eq_some he,
      List.find?_some (p := fun (e : List String × String) => e.1 == resolvePath fname) he⟩
  unfold writeBody bodyContent; split
  · exact fmtFprint_content_eq env w _ _ hf hex
  · split
    · exact fmtFprint_content_eq env w _ _ hf hex
    · exact hnew

theorem attachmentLoop_fst (env : Faults) (db : List String) (attDir : String)
    (atts : List Attachment) (acc : String) (w : World) :
    (attachmentLoop env db attDir atts acc w).1 = joinNames atts acc := by
  induction atts generalizing acc w with
  | nil => rfl
  | cons a atts ih => simp only [attachmentLoop, joinNames]; exact ih _ _

theorem attachmentLoop_index (env : Faults) (db : List String) (attDir : String)
    (atts : List Attachment) (acc : String) (w : World)
    (h : ∀ a ∈ atts, resolvePath (attDir ++ "/" ++ a.GetFilename) ≠ db) :
    (attachmentLoop env db attDir atts acc w).2.index = w.index ∧
    (attachmentLoop env db attDir atts acc w).2.dbValid = w.dbValid := by
  induction atts generalizing acc w with
  | nil => exact ⟨rfl, rfl⟩
  | cons a atts ih =>
    simp only [attachmentLoop]
    obtain ⟨h1, h2⟩ := ih _ (ioutilWriteFile env db w (attDir ++ "/" ++ a.GetFilename) a.GetData)
      (fun b hb => h b (by simp [hb]))
    obtain ⟨h3, h4⟩ := ioutilWriteFile_index_ne env db w (attDir ++ "/" ++ a.GetFilename)
      a.GetData (h a (by simp))
    exact ⟨by rw [h1, h3], by rw [h2, h4]⟩

theorem attachmentLoop_log (env : Faults) (db : List String) (attDir : String)
    (atts : List Attachment) (acc : String) (w : World) :
    (attachmentLoop env db attDir atts acc w).2.log =
      w.log ++ writeFileEvents env attDir atts := by
  induction atts generalizing acc w with
  | nil => simp [attachmentLoop, writeFileEvents]
  | cons a atts ih =>
    simp only [attachmentLoop]
    rw [ih, ioutilWriteFile_log]
    simp [writeFileEvents]

theorem attachmentLoop_fileExists_ne (env : Faults) (db : List String) (attDir : String)
    (atts : List Attachment) (acc : String) (w : World) (q : String)
    (h : ∀ a ∈ atts, resolvePath (attDir ++ "/" ++ a.GetFilename) ≠ resolvePath q) :
    (attachmentLoop env db attDir atts acc w).2.fileExists db q = w.fileExists db q := by
  induction atts generalizing acc w with
  | nil => rfl
  | cons a atts ih =>
    simp only [attachmentLoop]
    rw [ih _ _ (fun b hb => h b (by simp [hb]))]
    exact ioutilWriteFile_fileExists_ne env db w _ _ _ (h a (by simp))

theorem attachmentLoop_content_ne (env : Faults) (db : List String) (attDir : String)
    (atts : List Attachment) (acc : String) (w : World) (q : String)
    (h : ∀ a ∈ atts, resolvePath (attDir ++ "/" ++ a.GetFilename) ≠ resolvePath q) :
    (attachmentLoop env db attDir atts acc w).2.content q = w.content q := by
  induction atts generalizing acc w with
  | nil => rfl
  | cons a atts ih =>
    simp only [attachmentLoop]
    rw [ih _ _ (fun b hb => h b (by simp [hb]))]
    exact ioutilWriteFile_content_ne env db w _ _ _ (h a (by simp))

theorem attachmentLoop_fileExists_mono (env : Faults) (db : List String) (attDir : String)
    (atts : List Attachment) (acc : String) (w : World) (q : String)
    (h : w.fileExists db q = true) :
    (attachmentLoop env db attDir atts acc w).2.fileExists db q = true := by
  induction atts generalizing acc w with
  | nil => exact h
  | cons a atts ih =>
    simp only [attachmentLoop]
    exact ih _ _ (ioutilWriteFile_fileExists_mono env db w _ _ q h)

theorem attachmentLoop_written (env : Faults) (db : List String) (attDir : String)
    (atts : List Attachment) (acc : String) (w : World)
    (hf : ∀ a ∈ atts, env.writeFile (attDir ++ "/" ++ a.GetFilename) = false) :
    ∀ a ∈ atts, (attachmentLoop env db attDir atts acc w).2.fileExists db
      (attDir ++ "/" ++ a.GetFilename) = true := by
  induction atts generalizing acc w with
  | nil => intro a ha; simp at ha
  | cons b atts ih =>
    intro a ha
    simp only [attachmentLoop]
    rcases List.mem_cons.1 ha with rfl | ha'
    · exact attachmentLoop_fileExists_mono env db attDir atts _ _ _
        (ioutilWriteFile_fileExists_self env db w _ _ (hf a (by simp)))
    · exact ih _ _ (fun c hc => hf c (by simp [hc])) a ha'

theorem writeAttachments_fst (env : Faults) (db : List String) (w : World) (fname : String)
    (ii : Message) : (writeAttachments env db w fname ii).1 = attNamesOf ii := by
  unfold writeAttachments attNamesOf; split
  · exact attachmentLoop_fst _ _ _ _ _ _
  · rfl

theorem writeAttachments_index (env : Faults) (db : List String) (w : World)
    (fname : String) (ii : Message)
    (h : ii.HasAttachments = true → ∀ a ∈ ii.GetAttachments,
      resolvePath (fname ++ ".d" ++ "/" ++ a.GetFilename) ≠ db) :
    (writeAttachments env db w fname ii).2.index = w.index ∧
    (writeAttachments env db w fname ii).2.dbValid = w.dbValid := by
  unfold writeAttachments; split
  · rename_i hh
    exact attachmentLoop_index _ _ _ _ _ _ (h hh)
  · exact ⟨rfl, rfl⟩

theorem writeAttachments_log (env : Faults) (db : List String) (w : World) (fname : String)
    (ii : Message) :
    (writeAttachments env db w fname ii).2.log = w.log ++ attachmentEvents env fname ii := by
  unfold writeAttachments attachmentEvents; split
  · rw [attachmentLoop_log]; simp [osMkdirAll]
  · simp

theorem writeAttachments_fileExists_mono (env : Faults) (db : List String) (w : World)
    (fname : String) (ii : Message) (q : String) (h : w.fileExists db q = true) :
    (writeAttachments env db w fname ii).2.fileExists db q = true := by
  unfold writeAttachments; split
  · exact attachmentLoop_fileExists_mono _ _ _ _ _ _ _ (by simpa using h)
  · exact h

theorem writeAttachments_frame (env : Faults) (db : List String) (w : World)
    (fname : String) (ii : Message) (q : String)
    (h : ii.HasAttachments = true → ∀ a ∈ ii.GetAttachments,
      resolvePath (fname ++ ".d" ++ "/" ++ a.GetFilename) ≠ resolvePath q) :
    (writeAttachments env db w fname ii).2.fileExists db q = w.fileExists db q ∧
    (writeAttachments env db w fname ii).2.content q = w.content q := by
  unfold writeAttachments; split
  · rename_i hh
    rw [attachmentLoop_fileExists_ne _ _ _ _ _ _ _ (h hh),
      attachmentLoop_content_ne _ _ _ _ _ _ _ (h hh)]
    simp
  · exact ⟨rfl, rfl⟩

theorem writeAttachments_written (env : Faults) (db : List String) (w : World)
    (fname : String) (ii : Message) (hh : ii.HasAttachments = true)
    (hf : ∀ a ∈ ii.GetAttachments,
      env.writeFile (fname ++ ".d" ++ "/" ++ a.GetFilename) = false) :
    ∀ a ∈ ii.GetAttachments, (writeAttachments env db w fname ii).2.fileExists db
      (fname ++ ".d" ++ "/" ++ a.GetFilename) = true := by
  unfold writeAttachments
  rw [if_pos hh]
  exact attachmentLoop_written _ _ _ _ _ _ hf

theorem plainAttachments_mem {ii : Message} (h : plainAttachments ii = true)
    (hh : ii.HasAttachments = true) : ∀ a ∈ ii.GetAttachments, plainName a.GetFilename = true := by
  simp only [plainAttachments, hh, Bool.not_true, Bool.false_or, List.all_eq_true] at h
  exact h

/-! ### One iteration -/

theorem dbExecInsert_new (env : Faults) (w : World) (r : IndexRecord)
    (hv : w.dbValid = true) (h : w.indexed r.messageid = false) :
    dbExecInsert env w r =
      if env.exec r.messageid then (w.emit (Event.exec r false), some (Fatal.execError r.messageid))
      else (⟨w.files, w.index ++ [r], w.dbValid, w.log ++ [Event.exec r true]⟩, none) := by
  simp [dbExecInsert, h, hv]

/-- The insert succeeds only on a usable database without the key and
without a storage fault. -/
theorem dbExecInsert_ok {env : Faults} {w : World} {r : IndexRecord}
    (h : (dbExecInsert env w r).2 = none) :
    w.dbValid = true ∧ w.indexed r.messageid = false ∧ env.exec r.messageid = false ∧
    dbExecInsert env w r =
      (⟨w.files, w.index ++ [r], w.dbValid, w.log ++ [Event.exec r true]⟩, none) := by
  unfold dbExecInsert at h ⊢
  split at h
  · simp at h
  · rename_i hv
    split at h
    · simp at h
    · rename_i hidx
      split at h
      · simp at h
      · rename_i hex
        have hv' : w.dbValid = true := by
          cases hd : w.dbValid with
          | true => rfl
          | false => simp [hd] at hv
        refine ⟨hv', by simpa using hidx, by simpa using hex, ?_⟩
        simp [hv', hidx, hex]

theorem dbExecInsert_index_of_fatal {env : Faults} {w : World} {r : IndexRecord}
    (h : (dbExecInsert env w r).2 ≠ none) :
    dbExecInsert env w r = (w.emit (Event.exec r false), (dbExecInsert env w r).2) := by
  unfold dbExecInsert at h ⊢
  split
  · rfl
  · split
    · rfl
    · split
      · rfl
      · rename_i h1 h2 h3
        simp [h1, h2, h3] at h

theorem storeMessage_cases (env : Faults) (basedir : String) (w : World) (ii : Message) :
    (∃ c, c < 1000 ∧
        (osOpenFileExcl env (indexPath basedir) w (bodyPathOf basedir ii c)).1 = true ∧
        (∀ j, j < c →
          (osOpenFileExcl env (indexPath basedir) w (bodyPathOf basedir ii j)).1 = false) ∧
        storeMessage env basedir w ii =
          dbExecInsert env (writtenWorld env basedir w ii c)
            (mkRecord ii (bodyPathOf basedir ii c) (attNamesOf ii))) ∨
    ((∀ c, c < 1000 →
        (osOpenFileExcl env (indexPath basedir) w (bodyPathOf basedir ii c)).1 = false) ∧
      storeMessage env basedir w ii =
        (⟨w.files, w.index, w.dbValid,
            (w.log ++ [Event.mkdirAll (messageDir basedir ii)
                (!env.mkdirAll (messageDir basedir ii))])
              ++ (List.range 1000).map
                (fun j => Event.openFile (bodyPathOf basedir ii j) false)⟩,
          some (Fatal.cantCreate (bodyPathOf basedir ii 999)))) := by
  have hfst : ∀ p, (osOpenFileExcl env (indexPath basedir)
      (osMkdirAll env w (messageDir basedir ii)) p).1 =
      (osOpenFileExcl env (indexPath basedir) w p).1 :=
    fun p => osOpenFileExcl_fst_emit env _ w _ p
  rcases reserveBodyFile_cases env (indexPath basedir) (messageDir basedir ii)
      ii.GetDate.FormatStamp (osMkdirAll env w (messageDir basedir ii))
    with ⟨c, h1, h2, h3, h4⟩ | ⟨h1, h2⟩
  · left
    refine ⟨c, h1, ?_, ?_, ?_⟩
    · rw [← hfst]; exact h2
    · intro j hj; rw [← hfst]; exact h3 j hj
    · simp only [storeMessage, h4, writeAttachments_fst]
      rfl
  · right
    refine ⟨fun c hc => ?_, ?_⟩
    · rw [← hfst]; exact h1 c hc
    · simp only [storeMessage, h2]
      rfl

theorem writtenWorld_log (env : Faults) (basedir : String) (w : World)
    (ii : Message) (c : Nat) :
    (writtenWorld env basedir w ii c).log =
      w.log ++ ([Event.mkdirAll (messageDir basedir ii) (!env.mkdirAll (messageDir basedir ii))]
        ++ reserveEvents (messageDir basedir ii) ii.GetDate.FormatStamp c
        ++ bodyEvents env (bodyPathOf basedir ii c) ii
        ++ attachmentEvents env (bodyPathOf basedir ii c) ii) := by
  simp [writtenWorld, bodyWorld, writeAttachments_log, writeBody_log, reservedWorld]

theorem reservedWorld_fileExists (env : Faults) (basedir : String) (w : World)
    (ii : Message) (c : Nat) (db : List String) (q : String) :
    (reservedWorld env basedir w ii c).fileExists db q =
      (w.fileExists db q || (resolvePath (bodyPathOf basedir ii c) == resolvePath q)) := by
  simp [reservedWorld, World.fileExists, Bool.or_assoc]

@[simp] theorem bodyWorld_index (env : Faults) (basedir : String) (w : World)
    (ii : Message) (c : Nat) : (bodyWorld env basedir w ii c).index = w.index := by
  simp [bodyWorld, reservedWorld]

@[simp] theorem bodyWorld_dbValid (env : Faults) (basedir : String) (w : World)
    (ii : Message) (c : Nat) : (bodyWorld env basedir w ii c).dbValid = w.dbValid := by
  simp [bodyWorld, reservedWorld]

theorem bodyWorld_fileExists (env : Faults) (basedir : String) (w : World)
    (ii : Message) (c : Nat) (db : List String) (q : String) :
    (bodyWorld env basedir w ii c).fileExists db q =
      (w.fileExists db q || (resolvePath (bodyPathOf basedir ii c) == resolvePath q)) := by
  rw [bodyWorld, writeBody_fileExists, reservedWorld_fileExists]

/-- Content of the body file after line 156, before the attachments are
written. -/
theorem bodyWorld_content_body (env : Faults) (basedir : String) (w : World)
    (ii : Message) (c : Nat)
    (hnew : w.fileExists (indexPath basedir) (bodyPathOf basedir ii c) = false)
    (hf : env.fprint (bodyPathOf basedir ii c) = false) :
    (bodyWorld env basedir w ii c).content (bodyPathOf basedir ii c) =
      some (bodyContent ii) := by
  apply writeBody_content_eq env _ _ ii hf
  simp only [reservedWorld, World.content]
  exact find_append_new w.files _ _ ((fileExists_false_iff _ _ _).1 hnew).2

theorem bodyWorld_content_ne (env : Faults) (basedir : String) (w : World)
    (ii : Message) (c : Nat) (q : String)
    (h : resolvePath (bodyPathOf basedir ii c) ≠ resolvePath q) :
    (bodyWorld env basedir w ii c).content q = w.content q := by
  rw [bodyWorld, writeBody_content_ne _ _ _ h]
  simp only [reservedWorld, World.content]
  rw [find_append_of_ne w.files _ _ h]

theorem writtenWorld_fileExists_mono (env : Faults) (basedir : String) (w : World)
    (ii : Message) (c : Nat) (q : String)
    (h : w.fileExists (indexPath basedir) q = true) :
    (writtenWorld env basedir w ii c).fileExists (indexPath basedir) q = true := by
  apply writeAttachments_fileExists_mono
  rw [bodyWorld_fileExists, h]
  rfl

theorem writtenWorld_fileExists_body (env : Faults) (basedir : String) (w : World)
    (ii : Message) (c : Nat) :
    (writtenWorld env basedir w ii c).fileExists (indexPath basedir)
      (bodyPathOf basedir ii c) = true := by
  apply writeAttachments_fileExists_mono
  rw [bodyWorld_fileExists]
  simp

/-- With plain attachment names the attachment writes reach neither the
database file nor a body path of the message's directory and
timestamp. -/
theorem writtenWorld_plain (env : Faults) (basedir : String) (w : World)
    (ii : Message) (c : Nat) (hp : plainAttachments ii = true) :
    (writtenWorld env basedir w ii c).index = w.index ∧
    (writtenWorld env basedir w ii c).dbValid = w.dbValid ∧
    ∀ d, (writtenWorld env basedir w ii c).fileExists (indexPath basedir)
          (bodyPathOf basedir ii d) =
        (bodyWorld env basedir w ii c).fileExists (indexPath basedir)
          (bodyPathOf basedir ii d) ∧
      (writtenWorld env basedir w ii c).content (bodyPathOf basedir ii d) =
        (bodyWorld env basedir w ii c).content (bodyPathOf basedir ii d) := by
  obtain ⟨_, p2, p3, _⟩ := message_paths basedir ii
  have hidx := writeAttachments_index env (indexPath basedir) (bodyWorld env basedir w ii c)
    (bodyPathOf basedir ii c) ii
    (fun hh a ha => p2 c a.GetFilename (plainAttachments_mem hp hh a ha))
  refine ⟨by rw [writtenWorld, hidx.1]; simp, by rw [writtenWorld, hidx.2]; simp, fun d => ?_⟩
  exact writeAttachments_frame env (indexPath basedir) (bodyWorld env basedir w ii c)
    (bodyPathOf basedir ii c) ii (bodyPathOf basedir ii d)
    (fun hh a ha => p3 c d a.GetFilename (plainAttachments_mem hp hh a ha))

theorem processMessage_new (env : Faults) (basedir : String) (w : World) (ii : Message)
    (hq : env.queryRow ii.GetMessageId = false) (hv : w.dbValid = true)
    (hnew : w.indexed ii.GetMessageId = false) :
    processMessage env basedir w ii =
      storeMessage env basedir (w.emit (Event.queryRow ii.GetMessageId false)) ii := by
  simp [processMessage, hq, hnew, hv]

theorem processMessage_skip (env : Faults) (basedir : String) (w : World) (ii : Message)
    (hq : env.queryRow ii.GetMessageId = false) (hv : w.dbValid = true)
    (hold : w.indexed ii.GetMessageId = true) :
    processMessage env basedir w ii =
      (w.emit (Event.queryRow ii.GetMessageId true), none) := by
  simp [processMessage, hq, hold, hv]

/-- An iteration without fatal error started with a working query. -/
theorem processMessage_ok_query {env : Faults} {basedir : String} {w : World} {ii : Message}
    (hok : (processMessage env basedir w ii).2 = none) :
    env.queryRow ii.GetMessageId = false ∧ w.dbValid = true := by
  unfold processMessage at hok
  split at hok
  · simp at hok
  · rename_i h
    simp only [Bool.or_eq_true, Bool.not_eq_true', not_or, Bool.not_eq_true,
      Bool.not_eq_false] at h
    exact h

/-- An iteration on a message that is not in the index and that ends
without a fatal error: the reservation succeeded at some counter and the
row was inserted into the database as the attachment writes left it. -/
theorem processMessage_stored {env : Faults} {basedir : String} {w : World} {ii : Message}
    (hnew : w.indexed ii.GetMessageId = false)
    (hok : (processMessage env basedir w ii).2 = none) :
    ∃ c, c < 1000 ∧
      env.openFile (bodyPathOf basedir ii c) = false ∧
      w.fileExists (indexPath basedir) (bodyPathOf basedir ii c) = false ∧
      (∀ j, j < c →
        (osOpenFileExcl env (indexPath basedir) w (bodyPathOf basedir ii j)).1 = false) ∧
      processMessage env basedir w ii =
        (⟨(writtenWorld env basedir (w.emit (Event.queryRow ii.GetMessageId false)) ii c).files,
          (writtenWorld env basedir (w.emit (Event.queryRow ii.GetMessageId false)) ii c).index
            ++ [mkRecord ii (bodyPathOf basedir ii c) (attNamesOf ii)],
          true,
          (writtenWorld env basedir (w.emit (Event.queryRow ii.GetMessageId false)) ii c).log
            ++ [Event.exec (mkRecord ii (bodyPathOf basedir ii c) (attNamesOf ii)) true]⟩,
          none) := by
  obtain ⟨hq, hv⟩ := processMessage_ok_query hok
  rw [processMessage_new env basedir w ii hq hv hnew] at hok ⊢
  rcases storeMessage_cases env basedir (w.emit (Event.queryRow ii.GetMessageId false)) ii
    with ⟨c, h1, h2, h3, h4⟩ | ⟨_, h2⟩
  · rw [h4] at hok ⊢
    obtain ⟨a1, _, _, a4⟩ := dbExecInsert_ok hok
    obtain ⟨h5, h6⟩ := (osOpenFileExcl_fst _ _ _ _).1 h2
    refine ⟨c, h1, h5, by simpa using h6, ?_, ?_⟩
    · intro j hj
      have := h3 j hj
      rwa [osOpenFileExcl_fst_emit] at this
    · rw [a4, a1]
  · rw [h2] at hok
    simp at hok

/-- An iteration on a message that is not in the index and has plain
attachment names, on a usable database, with no database fault for it and
some counter at which the creation succeeds: no fatal error, and the
state after it. -/
theorem processMessage_store_ok {env : Faults} {basedir : String} {w : World} {ii : Message}
    (hnew : w.indexed ii.GetMessageId = false) (hv : w.dbValid = true)
    (hp : plainAttachments ii = true)
    (hq : env.queryRow ii.GetMessageId = false) (hex : env.exec ii.GetMessageId = false)
    (hfree : ∃ c, c < 1000 ∧
      (osOpenFileExcl env (indexPath basedir) w (bodyPathOf basedir ii c)).1 = true) :
    ∃ c, c < 1000 ∧
      env.openFile (bodyPathOf basedir ii c) = false ∧
      w.fileExists (indexPath basedir) (bodyPathOf basedir ii c) = false ∧
      (∀ j, j < c →
        (osOpenFileExcl env (indexPath basedir) w (bodyPathOf basedir ii j)).1 = false) ∧
      processMessage env basedir w ii =
        (⟨(writtenWorld env basedir (w.emit (Event.queryRow ii.GetMessageId false)) ii c).files,
          w.index ++ [mkRecord ii (bodyPathOf basedir ii c) (attNamesOf ii)],
          true,
          (writtenWorld env basedir (w.emit (Event.queryRow ii.GetMessageId false)) ii c).log
            ++ [Event.exec (mkRecord ii (bodyPathOf basedir ii c) (attNamesOf ii)) true]⟩,
          none) := by
  rw [processMessage_new env basedir w ii hq hv hnew]
  rcases storeMessage_cases env basedir (w.emit (Event.queryRow ii.GetMessageId false)) ii
    with ⟨c, h1, h2, h3, h4⟩ | ⟨hall, _⟩
  · obtain ⟨i1, i2, _⟩ := writtenWorld_plain env basedir
      (w.emit (Event.queryRow ii.GetMessageId false)) ii c hp
    have hv' : (writtenWorld env basedir (w.emit (Event.queryRow ii.GetMessageId false))
        ii c).dbValid = true := by rw [i2]; exact hv
    have hidx : (writtenWorld env basedir (w.emit (Event.queryRow ii.GetMessageId false))
        ii c).indexed (mkRecord ii (bodyPathOf basedir ii c) (attNamesOf ii)).messageid
        = false := by
      simp only [World.indexed, i1]; exact hnew
    rw [h4, dbExecInsert_new _ _ _ hv' hidx]
    obtain ⟨h5, h6⟩ := (osOpenFileExcl_fst _ _ _ _).1 h2
    refine ⟨c, h1, h5, by simpa using h6, ?_, ?_⟩
    · intro j hj
      have := h3 j hj
      rwa [osOpenFileExcl_fst_emit] at this
    · simp [mkRecord, hex, i1, hv']
  · obtain ⟨c, hc, hcr⟩ := hfree
    have := hall c hc
    rw [osOpenFileExcl_fst_emit, hcr] at this
    cases this

theorem fprintsOf_append (a b : List Event) :
    fprintsOf (a ++ b) = fprintsOf a ++ fprintsOf b := by
  simp [fprintsOf, List.filterMap_append]

theorem writeFilesOf_append (a b : List Event) :
    writeFilesOf (a ++ b) = writeFilesOf a ++ writeFilesOf b := by
  simp [writeFilesOf, List.filterMap_append]

theorem insertsOf_append (a b : List Event) :
    insertsOf (a ++ b) = insertsOf a ++ insertsOf b := by
  simp [insertsOf, List.filterMap_append]

theorem fprintsOf_reserveEvents (dir ts : String) (c : Nat) :
    fprintsOf (reserveEvents dir ts c) = [] := by
  simp [fprintsOf, reserveEvents, List.filterMap_append, List.filterMap_map]

theorem writeFilesOf_reserveEvents (dir ts : String) (c : Nat) :
    writeFilesOf (reserveEvents dir ts c) = [] := by
  simp [writeFilesOf, reserveEvents, List.filterMap_append, List.filterMap_map]

theorem insertsOf_reserveEvents (dir ts : String) (c : Nat) :
    insertsOf (reserveEvents dir ts c) = [] := by
  simp [insertsOf, reserveEvents, List.filterMap_append, List.filterMap_map]

theorem fprintsOf_bodyEvents (env : Faults) (fname : String) (ii : Message) :
    fprintsOf (bodyEvents env fname ii) =
      if ii.HasBodyText then [(fname, ii.GetBodyText)]
      else if ii.HasBodyHtml then [(fname, ii.GetBodyHtml)]
      else [] := by
  unfold bodyEvents
  split
  · simp [fprintsOf]
  · split <;> simp [fprintsOf]

theorem writeFilesOf_bodyEvents (env : Faults) (fname : String) (ii : Message) :
    writeFilesOf (bodyEvents env fname ii) = [] := by
  unfold bodyEvents
  split
  · simp [writeFilesOf]
  · split <;> simp [writeFilesOf]

theorem insertsOf_bodyEvents (env : Faults) (fname : String) (ii : Message) :
    insertsOf (bodyEvents env fname ii) = [] := by
  unfold bodyEvents
  split
  · simp [insertsOf]
  · split <;> simp [insertsOf]

theorem fprintsOf_attachmentEvents (env : Faults) (fname : String) (ii : Message) :
    fprintsOf (attachmentEvents env fname ii) = [] := by
  unfold attachmentEvents
  split
  · simp [fprintsOf, writeFileEvents, List.filterMap_map]
  · simp [fprintsOf]

theorem insertsOf_attachmentEvents (env : Faults) (fname : String) (ii : Message) :
    insertsOf (attachmentEvents env fname ii) = [] := by
  unfold attachmentEvents
  split
  · simp [insertsOf, writeFileEvents, List.filterMap_map]
  · simp [insertsOf]

theorem writeFilesOf_attachmentEvents (env : Faults) (fname : String) (ii : Message) :
    writeFilesOf (attachmentEvents env fname ii) =
      if ii.HasAttachments then
        ii.GetAttachments.map (fun a => (fname ++ ".d" ++ "/" ++ a.GetFilename, a.GetData))
      else [] := by
  unfold attachmentEvents
  split
  · simp only [writeFilesOf, writeFileEvents, List.filterMap_cons, List.filterMap_map]
    induction ii.GetAttachments with
    | nil => rfl
    | cons a l ih => simp [List.filterMap_cons, ih]
  · simp [writeFilesOf]

/-- The operations of an iteration that stored the message. -/
theorem stored_log (env : Faults) (basedir : String) (w : World) (ii : Message) (c : Nat)
    (r : IndexRecord) :
    ((writtenWorld env basedir (w.emit (Event.queryRow ii.GetMessageId false)) ii c).log
        ++ [Event.exec r true]).drop w.log.length =
      [Event.queryRow ii.GetMessageId false,
        Event.mkdirAll (messageDir basedir ii) (!env.mkdirAll (messageDir basedir ii))]
        ++ reserveEvents (messageDir basedir ii) ii.GetDate.FormatStamp c
        ++ bodyEvents env (bodyPathOf basedir ii c) ii
        ++ attachmentEvents env (bodyPathOf basedir ii c) ii
        ++ [Event.exec r true] := by
  rw [writtenWorld_log]
  simp only [emit_log, List.append_assoc]
  rw [List.drop_left]
  simp

/-! ### Storage layout -/

theorem append_dot_d (fname name : String) :
    fname ++ ".d" ++ "/" ++ name = fname ++ ".d/" ++ name := by
  apply String.ext
  simp [String.data_append]

/-- The layout `"20060102"` of a date with a four-digit year is eight
digits. -/
theorem formatDate_digits (t : Time) (hy : t.year < 10000) (hm : t.month < 100)
    (hd : t.day < 100) :
    t.Format20060102 = String.mk
      [Nat.digitChar (t.year / 1000), Nat.digitChar (t.year / 100 % 10),
        Nat.digitChar (t.year / 10 % 10), Nat.digitChar (t.year % 10),
        Nat.digitChar (t.month / 10), Nat.digitChar (t.month % 10),
        Nat.digitChar (t.day / 10), Nat.digitChar (t.day % 10)] := by
  apply String.ext
  simp only [Time.Format20060102, String.data_append, zeroPad_four_data hy,
    zeroPad_two_data _ hm, zeroPad_two_data _ hd]
  rfl

theorem formatTime_digits (t : Time) (hh : t.hour < 100) (hm : t.minute < 100)
    (hs : t.second < 100) :
    t.Format150405 = String.mk
      [Nat.digitChar (t.hour / 10), Nat.digitChar (t.hour % 10),
        Nat.digitChar (t.minute / 10), Nat.digitChar (t.minute % 10),
        Nat.digitChar (t.second / 10), Nat.digitChar (t.second % 10)] := by
  apply String.ext
  simp only [Time.Format150405, String.data_append, zeroPad_two_data _ hh,
    zeroPad_two_data _ hm, zeroPad_two_data _ hs]
  rfl

/-- C9: for a message that was stored (its date with a four-digit year and
two-digit month, day, hour, minute and second), the `filename` column of
the inserted row is
`basedir/extractEmail(sender)/YYYYMMDD/YYYYMMDD-HHMMSS.NNN`, every digit
spelled out: `YYYYMMDD` and `HHMMSS` are the zero-padded decimal digits of
the fields of the message's date and `NNN` the three decimal digits of the
counter `c < 1000` of the reservation (the least counter at which the
exclusive creation succeeds); and the attachment loop writes each
attachment, in order, at that path followed by `.d/` and the attachment's
filename. -/
theorem storage_layout (env : Faults) (basedir : String) (w : World) (ii : Message)
    (hnew : w.indexed ii.GetMessageId = false)
    (hok : (processMessage env basedir w ii).2 = none)
    (hyear : ii.GetDate.year < 10000) (hmonth : ii.GetDate.month < 100)
    (hday : ii.GetDate.day < 100) (hhour : ii.GetDate.hour < 100)
    (hminute : ii.GetDate.minute < 100) (hsecond : ii.GetDate.second < 100) :
    ∃ c r old, c < 1000 ∧ (processMessage env basedir w ii).1.index = old ++ [r] ∧
      (osOpenFileExcl env (indexPath basedir) w r.filename).1 = true ∧
      (∀ j, j < c →
        (osOpenFileExcl env (indexPath basedir) w (bodyPathOf basedir ii j)).1 = false) ∧
      r.filename = bodyPathOf basedir ii c ∧
      r.filename = basedir ++ "/" ++ extractEmail ii.GetFrom ++ "/" ++
        String.mk
          [Nat.digitChar (ii.GetDate.year / 1000), Nat.digitChar (ii.GetDate.year / 100 % 10),
            Nat.digitChar (ii.GetDate.year / 10 % 10), Nat.digitChar (ii.GetDate.year % 10),
            Nat.digitChar (ii.GetDate.month / 10), Nat.digitChar (ii.GetDate.month % 10),
            Nat.digitChar (ii.GetDate.day / 10), Nat.digitChar (ii.GetDate.day % 10)] ++ "/" ++
        String.mk
          [Nat.digitChar (ii.GetDate.year / 1000), Nat.digitChar (ii.GetDate.year / 100 % 10),
            Nat.digitChar (ii.GetDate.year / 10 % 10), Nat.digitChar (ii.GetDate.year % 10),
            Nat.digitChar (ii.GetDate.month / 10), Nat.digitChar (ii.GetDate.month % 10),
            Nat.digitChar (ii.GetDate.day / 10), Nat.digitChar (ii.GetDate.day % 10),
            '-',
            Nat.digitChar (ii.GetDate.hour / 10), Nat.digitChar (ii.GetDate.hour % 10),
            Nat.digitChar (ii.GetDate.minute / 10), Nat.digitChar (ii.GetDate.minute % 10),
            Nat.digitChar (ii.GetDate.second / 10), Nat.digitChar (ii.GetDate.second % 10)]
        ++ "." ++
        String.mk [Nat.digitChar (c / 100), Nat.digitChar (c / 10 % 10),
          Nat.digitChar (c % 10)] ∧
      writeFilesOf ((processMessage env basedir w ii).1.log.drop w.log.length) =
        if ii.HasAttachments then
          ii.GetAttachments.map (fun a => (r.filename ++ ".d/" ++ a.GetFilename, a.GetData))
        else [] := by
  obtain ⟨c, hc, hop, hfresh, hleast, hres⟩ := processMessage_stored hnew hok
  refine ⟨c, mkRecord ii (bodyPathOf basedir ii c) (attNamesOf ii),
    (writtenWorld env basedir (w.emit (Event.queryRow ii.GetMessageId false)) ii c).index,
    hc, ?_, (osOpenFileExcl_fst _ _ _ _).2 ⟨hop, hfresh⟩, hleast, rfl, ?_, ?_⟩
  · rw [hres]
  · simp only [mkRecord, bodyPathOf, bodyPath, messageDir, Time.FormatStamp,
      zeroPad_three hc, formatDate_digits _ hyear hmonth hday,
      formatTime_digits _ hhour hminute hsecond]
    apply String.ext
    simp [String.data_append]
  · rw [hres]
    simp only [stored_log, writeFilesOf_append, writeFilesOf_reserveEvents,
      writeFilesOf_bodyEvents, writeFilesOf_attachmentEvents, mkRecord, append_dot_d]
    simp [writeFilesOf]

theorem storage_layout_witness :
    (emptyWorld.indexed sampleMessage.GetMessageId = false ∧
      (processMessage noFaults "base" emptyWorld sampleMessage).2 = none ∧
      (processMessage noFaults "base" emptyWorld sampleMessage).1.index.map
          (fun r => r.filename) =
        ["base/john.doe@example.co/20240102/20240102-030405.000"] ∧
      writeFilesOf (processMessage noFaults "base" emptyWorld sampleMessage).1.log =
        [("base/john.doe@example.co/20240102/20240102-030405.000.d/a.txt", "A"),
          ("base/john.doe@example.co/20240102/20240102-030405.000.d/b.pdf", "B")]) ∧
    ∃ c r old, c < 1000 ∧
      (processMessage noFaults "base" emptyWorld sampleMessage).1.index = old ++ [r] ∧
      (osOpenFileExcl noFaults (indexPath "base") emptyWorld r.filename).1 = true ∧
      (∀ j, j < c →
        (osOpenFileExcl noFaults (indexPath "base") emptyWorld
          (bodyPathOf "base" sampleMessage j)).1 = false) ∧
      r.filename = bodyPathOf "base" sampleMessage c ∧
      r.filename = "base" ++ "/" ++ extractEmail sampleMessage.GetFrom ++ "/" ++
        String.mk
          [Nat.digitChar (sampleMessage.GetDate.year / 1000),
            Nat.digitChar (sampleMessage.GetDate.year / 100 % 10),
            Nat.digitChar (sampleMessage.GetDate.year / 10 % 10),
            Nat.digitChar (sampleMessage.GetDate.year % 10),
            Nat.digitChar (sampleMessage.GetDate.month / 10),
            Nat.digitChar (sampleMessage.GetDate.month % 10),
            Nat.digitChar (sampleMessage.GetDate.day / 10),
            Nat.digitChar (sampleMessage.GetDate.day % 10)] ++ "/" ++
        String.mk
          [Nat.digitChar (sampleMessage.GetDate.year / 1000),
            Nat.digitChar (sampleMessage.GetDate.year / 100 % 10),
            Nat.digitChar (sampleMessage.GetDate.year / 10 % 10),
            Nat.digitChar (sampleMessage.GetDate.year % 10),
            Nat.digitChar (sampleMessage.GetDate.month / 10),
            Nat.digitChar (sampleMessage.GetDate.month % 10),
            Nat.digitChar (sampleMessage.GetDate.day / 10),
            Nat.digitChar (sampleMessage.GetDate.day % 10),
            '-',
            Nat.digitChar (sampleMessage.GetDate.hour / 10),
            Nat.digitChar (sampleMessage.GetDate.hour % 10),
            Nat.digitChar (sampleMessage.GetDate.minute / 10),
            Nat.digitChar (sampleMessage.GetDate.minute % 10),
            Nat.digitChar (sampleMessage.GetDate.second / 10),
            Nat.digitChar (sampleMessage.GetDate.second % 10)]
        ++ "." ++
        String.mk [Nat.digitChar (c / 100), Nat.digitChar (c / 10 % 10),
          Nat.digitChar (c % 10)] ∧
      writeFilesOf ((processMessage noFaults "base" emptyWorld sampleMessage).1.log.drop
          emptyWorld.log.length) =
        if sampleMessage.HasAttachments then
          sampleMessage.GetAttachments.map
            (fun a => (r.filename ++ ".d/" ++ a.GetFilename, a.GetData))
        else [] :=
  ⟨by decide,
    storage_layout noFaults "base" emptyWorld sampleMessage (by decide) (by decide)
      (by decide) (by decide) (by decide) (by decide) (by decide) (by decide)⟩

/-! ### Body preference -/

/-- C7 (counterexample): the attachment filename `../20240102-030405.000`
resolves to the message's own body file, so after the body text `hello`
was printed to it, line 163 writes the attachment data over it: the row is
inserted and its body file holds `PWNED`. -/
theorem body_overwritten_by_own_attachment :
    emptyWorld.indexed ownBodyOverwriteMessage.GetMessageId = false ∧
    ownBodyOverwriteMessage.HasBodyText = true ∧
    ownBodyOverwriteMessage.GetBodyText = "hello" ∧
    (processMessage noFaults "base" emptyWorld ownBodyOverwriteMessage).2 = none ∧
    (processMessage noFaults "base" emptyWorld ownBodyOverwriteMessage).1.index.map
      (fun r => r.filename) = ["base/john.doe@example.co/20240102/20240102-030405.000"] ∧
    writeFilesOf (processMessage noFaults "base" emptyWorld ownBodyOverwriteMessage).1.log =
      [("base/john.doe@example.co/20240102/20240102-030405.000.d/../20240102-030405.000",
        "PWNED")] ∧
    resolvePath
        "base/john.doe@example.co/20240102/20240102-030405.000.d/../20240102-030405.000" =
      resolvePath "base/john.doe@example.co/20240102/20240102-030405.000" ∧
    (processMessage noFaults "base" emptyWorld ownBodyOverwriteMessage).1.content
      "base/john.doe@example.co/20240102/20240102-030405.000" = some "PWNED" := by
  decide

/-- C7 (amended): for a message that is not in the index and whose
attachment filenames are plain file names, on a usable database with no
database fault for the message and a counter at which the body file can be
created, the iteration ends without a fatal error and inserts a row for
the message; the only print to a file is the body text to the body file
when body text is present, the body html when only html is present, and
none when neither is present; and when the print does not fail the body
file holds exactly that content after the iteration (the empty content
when neither is present). -/
theorem body_preference (env : Faults) (basedir : String) (w : World) (ii : Message)
    (hnew : w.indexed ii.GetMessageId = false) (hv : w.dbValid = true)
    (hp : plainAttachments ii = true)
    (hq : env.queryRow ii.GetMessageId = false) (hex : env.exec ii.GetMessageId = false)
    (hfree : ∃ c, c < 1000 ∧
      (osOpenFileExcl env (indexPath basedir) w (bodyPathOf basedir ii c)).1 = true) :
    (processMessage env basedir w ii).2 = none ∧
    ∃ r, (processMessage env basedir w ii).1.index = w.index ++ [r] ∧
      r.messageid = ii.GetMessageId ∧
      fprintsOf ((processMessage env basedir w ii).1.log.drop w.log.length) =
        (if ii.HasBodyText then [(r.filename, ii.GetBodyText)]
         else if ii.HasBodyHtml then [(r.filename, ii.GetBodyHtml)]
         else []) ∧
      (env.fprint r.filename = false →
        (processMessage env basedir w ii).1.content r.filename =
          some (if ii.HasBodyText then ii.GetBodyText
                else if ii.HasBodyHtml then ii.GetBodyHtml
                else "")) := by
  obtain ⟨c, hc, _, hfresh, _, hres⟩ := processMessage_store_ok hnew hv hp hq hex hfree
  refine ⟨by rw [hres], mkRecord ii (bodyPathOf basedir ii c) (attNamesOf ii),
    by rw [hres], rfl, ?_, ?_⟩
  · rw [hres]
    simp only [stored_log, fprintsOf_append, fprintsOf_reserveEvents,
      fprintsOf_bodyEvents, fprintsOf_attachmentEvents, mkRecord]
    simp [fprintsOf]
  · intro hf
    rw [hres]
    have h1 := ((writtenWorld_plain env basedir
      (w.emit (Event.queryRow ii.GetMessageId false)) ii c hp).2.2 c).2
    have h2 := bodyWorld_content_body env basedir
      (w.emit (Event.queryRow ii.GetMessageId false)) ii c (by simpa using hfresh) hf
    rw [h2] at h1
    simpa [World.content, bodyContent, mkRecord] using h1

theorem body_preference_witness :
    (emptyWorld.indexed sampleMessage.GetMessageId = false ∧
      plainAttachments sampleMessage = true ∧
      fprintsOf (processMessage noFaults "base" emptyWorld sampleMessage).1.log =
        [("base/john.doe@example.co/20240102/20240102-030405.000", "hello")] ∧
      (processMessage noFaults "base" emptyWorld sampleMessage).1.content
        "base/john.doe@example.co/20240102/20240102-030405.000" = some "hello" ∧
      (processMessage noFaults "base" emptyWorld sampleMessage2).1.content
        "base/john.doe@example.co/20240102/20240102-030405.000" = some "<p>two</p>") ∧
    (processMessage noFaults "base" emptyWorld sampleMessage).2 = none ∧
    ∃ r, (processMessage noFaults "base" emptyWorld sampleMessage).1.index
        = emptyWorld.index ++ [r] ∧
      r.messageid = sampleMessage.GetMessageId ∧
      fprintsOf ((processMessage noFaults "base" emptyWorld sampleMessage).1.log.drop
          emptyWorld.log.length) =
        (if sampleMessage.HasBodyText then [(r.filename, sampleMessage.GetBodyText)]
         else if sampleMessage.HasBodyHtml then [(r.filename, sampleMessage.GetBodyHtml)]
         else []) ∧
      (noFaults.fprint r.filename = false →
        (processMessage noFaults "base" emptyWorld sampleMessage).1.content r.filename =
          some (if sampleMessage.HasBodyText then sampleMessage.GetBodyText
                else if sampleMessage.HasBodyHtml then sampleMessage.GetBodyHtml
                else "")) :=
  ⟨by decide,
    body_preference noFaults "base" emptyWorld sampleMessage (by decide) (by decide)
      (by decide) (by decide) (by decide) ⟨0, by decide, by decide⟩⟩

/-! ### Write-then-index -/

/-- An iteration that ends with a fatal error inserted no row. -/
theorem processMessage_fatal_inserts (env : Faults) (basedir : String) (w : World)
    (ii : Message) (h : (processMessage env basedir w ii).2 ≠ none) :
    insertsOf ((processMessage env basedir w ii).1.log.drop w.log.length) = [] := by
  unfold processMessage at h ⊢
  split
  · simp [insertsOf]
  · split
    · rename_i h1 h2
      simp [h1, h2] at h
    · rename_i h1 h2
      rw [if_neg h1, if_neg h2] at h
      rcases storeMessage_cases env basedir (w.emit (Event.queryRow ii.GetMessageId false)) ii
        with ⟨c, _, _, _, h4⟩ | ⟨_, h4⟩
      · rw [h4] at h ⊢
        rw [dbExecInsert_index_of_fatal h]
        simp only [emit_log, writtenWorld_log, List.append_assoc]
        rw [List.drop_left]
        simp only [insertsOf_append, insertsOf_reserveEvents, insertsOf_bodyEvents,
          insertsOf_attachmentEvents]
        simp [insertsOf]
      · rw [h4]
        simp only [emit_log, List.append_assoc]
        rw [List.drop_left]
        simp [insertsOf, List.filterMap_map]

theorem processMessage_all_fail (env : Faults) (basedir : String) (w : World) (ii : Message)
    (hnew : w.indexed ii.GetMessageId = false)
    (hall : ∀ c, c < 1000 →
      (osOpenFileExcl env (indexPath basedir) w (bodyPathOf basedir ii c)).1 = false) :
    (processMessage env basedir w ii).2 ≠ none ∧
    (processMessage env basedir w ii).1.index = w.index := by
  unfold processMessage
  split
  · exact ⟨by simp, rfl⟩
  · rw [if_neg (by simp [hnew])]
    rcases storeMessage_cases env basedir (w.emit (Event.queryRow ii.GetMessageId false)) ii
      with ⟨c, hc, h2, _, _⟩ | ⟨_, h2⟩
    · have := hall c hc
      rw [osOpenFileExcl_fst_emit, this] at h2
      cases h2
    · rw [h2]; exact ⟨by simp, rfl⟩

/-- C3 (counterexample): with a failing body write the iteration does not
abort and the row is inserted although the body content was not written. -/
theorem body_write_failure_still_indexed :
    emptyWorld.indexed sampleMessage.GetMessageId = false ∧
    Event.fprint "base/john.doe@example.co/20240102/20240102-030405.000" "hello" false ∈
      (processMessage fprintFaults "base" emptyWorld sampleMessage).1.log ∧
    (processMessage fprintFaults "base" emptyWorld sampleMessage).2 = none ∧
    (processMessage fprintFaults "base" emptyWorld sampleMessage).1.indexed "m1" = true ∧
    ((processMessage fprintFaults "base" emptyWorld sampleMessage).1.index.map
      (fun r => r.filename)) = ["base/john.doe@example.co/20240102/20240102-030405.000"] ∧
    (processMessage fprintFaults "base" emptyWorld sampleMessage).1.content
      "base/john.doe@example.co/20240102/20240102-030405.000" = some "" := by
  decide

/-- C3 (amended): for a message that is not in the index, (1) when the
exclusive creation fails at every counter 0..999 the iteration is fatal,
the index is unchanged and no row is inserted; (2) an iteration that is
fatal inserts no row; (3) an iteration that is not fatal inserts exactly
one row, for this message, as the last row of the index, after the body
file it names was created exclusively in this iteration (the file did not
exist before and exists after the iteration); and (4) when the message's
attachment filenames are plain file names, the rows present before are
kept, the body file holds the preferred body content when the body print
does not fail, and every attachment file exists when no attachment write
fails. -/
theorem index_only_after_reservation (env : Faults) (basedir : String) (w : World)
    (ii : Message) (hnew : w.indexed ii.GetMessageId = false) :
    ((∀ c, c < 1000 →
        (osOpenFileExcl env (indexPath basedir) w (bodyPathOf basedir ii c)).1 = false) →
      (processMessage env basedir w ii).2 ≠ none ∧
      (processMessage env basedir w ii).1.index = w.index) ∧
    ((processMessage env basedir w ii).2 ≠ none →
      insertsOf ((processMessage env basedir w ii).1.log.drop w.log.length) = []) ∧
    ((processMessage env basedir w ii).2 = none →
      ∃ c r evs old, c < 1000 ∧
        (processMessage env basedir w ii).1.index = old ++ [r] ∧
        insertsOf ((processMessage env basedir w ii).1.log.drop w.log.length) = [r] ∧
        r.messageid = ii.GetMessageId ∧ r.filename = bodyPathOf basedir ii c ∧
        w.fileExists (indexPath basedir) r.filename = false ∧
        (processMessage env basedir w ii).1.log.drop w.log.length =
          [Event.queryRow ii.GetMessageId false,
            Event.mkdirAll (messageDir basedir ii) (!env.mkdirAll (messageDir basedir ii))]
          ++ (List.range c).map (fun j => Event.openFile (bodyPathOf basedir ii j) false)
          ++ [Event.openFile r.filename true] ++ evs ++ [Event.exec r true] ∧
        insertsOf evs = [] ∧
        (processMessage env basedir w ii).1.fileExists (indexPath basedir) r.filename = true ∧
        (plainAttachments ii = true →
          old = w.index ∧
          (env.fprint r.filename = false →
            (processMessage env basedir w ii).1.content r.filename =
              some (bodyContent ii)) ∧
          (ii.HasAttachments = true →
            (∀ a ∈ ii.GetAttachments,
              env.writeFile (r.filename ++ ".d/" ++ a.GetFilename) = false) →
            ∀ a ∈ ii.GetAttachments,
              (processMessage env basedir w ii).1.fileExists (indexPath basedir)
                (r.filename ++ ".d/" ++ a.GetFilename) = true))) := by
  refine ⟨processMessage_all_fail env basedir w ii hnew,
    processMessage_fatal_inserts env basedir w ii, fun hok => ?_⟩
  obtain ⟨c, hc, _, hfresh, _, hres⟩ := processMessage_stored hnew hok
  refine ⟨c, mkRecord ii (bodyPathOf basedir ii c) (attNamesOf ii),
    bodyEvents env (bodyPathOf basedir ii c) ii
      ++ attachmentEvents env (bodyPathOf basedir ii c) ii,
    (writtenWorld env basedir (w.emit (Event.queryRow ii.GetMessageId false)) ii c).index,
    hc, by rw [hres], ?_, rfl, rfl, hfresh, ?_, ?_, ?_, ?_⟩
  · rw [hres]
    simp only [stored_log, insertsOf_append, insertsOf_reserveEvents, insertsOf_bodyEvents,
      insertsOf_attachmentEvents]
    simp [insertsOf]
  · rw [hres]
    simp only [stored_log, reserveEvents, mkRecord, bodyPathOf, List.append_assoc]
  · simp only [insertsOf_append, insertsOf_bodyEvents, insertsOf_attachmentEvents,
      List.append_nil]
  · rw [hres]
    exact writtenWorld_fileExists_body env basedir _ ii c
  · intro hp
    obtain ⟨i1, _, i3⟩ := writtenWorld_plain env basedir
      (w.emit (Event.queryRow ii.GetMessageId false)) ii c hp
    refine ⟨by rw [i1]; rfl, ?_, ?_⟩
    · intro hf
      rw [hres]
      have h2 := bodyWorld_content_body env basedir
        (w.emit (Event.queryRow ii.GetMessageId false)) ii c (by simpa using hfresh) hf
      have h1 := (i3 c).2
      rw [h2] at h1
      exact h1
    · intro hh hf a ha
      rw [hres]
      simp only [mkRecord, ← append_dot_d] at hf ⊢
      exact writeAttachments_written env _ _ _ ii hh hf a ha

theorem index_only_after_reservation_witness :
    (emptyWorld.indexed sampleMessage.GetMessageId = false ∧
      (processMessage fprintFaults "base" emptyWorld sampleMessage).1.index.map
        (fun r => r.filename) = ["base/john.doe@example.co/20240102/20240102-030405.000"] ∧
      createdOf (processMessage fprintFaults "base" emptyWorld sampleMessage).1.log =
        ["base/john.doe@example.co/20240102/20240102-030405.000"] ∧
      (processMessage fprintFaults "base" emptyWorld sampleMessage).1.files.map
        (fun e => e.1) =
        [["base", "john.doe@example.co", "20240102", "20240102-030405.000"],
          ["base", "john.doe@example.co", "20240102", "20240102-030405.000.d", "a.txt"],
          ["base", "john.doe@example.co", "20240102", "20240102-030405.000.d", "b.pdf"]]) ∧
    ∃ c r evs old, c < 1000 ∧
      (processMessage fprintFaults "base" emptyWorld sampleMessage).1.index = old ++ [r] ∧
      insertsOf ((processMessage fprintFaults "base" emptyWorld sampleMessage).1.log.drop
          emptyWorld.log.length) = [r] ∧
      r.messageid = sampleMessage.GetMessageId ∧
      r.filename = bodyPathOf "base" sampleMessage c ∧
      emptyWorld.fileExists (indexPath "base") r.filename = false ∧
      (processMessage fprintFaults "base" emptyWorld sampleMessage).1.log.drop
          emptyWorld.log.length =
        [Event.queryRow sampleMessage.GetMessageId false,
          Event.mkdirAll (messageDir "base" sampleMessage)
            (!fprintFaults.mkdirAll (messageDir "base" sampleMessage))]
        ++ (List.range c).map (fun j => Event.openFile (bodyPathOf "base" sampleMessage j) false)
        ++ [Event.openFile r.filename true] ++ evs ++ [Event.exec r true] ∧
      insertsOf evs = [] ∧
      (processMessage fprintFaults "base" emptyWorld sampleMessage).1.fileExists
        (indexPath "base") r.filename = true ∧
      (plainAttachments sampleMessage = true →
        old = emptyWorld.index ∧
        (fprintFaults.fprint r.filename = false →
          (processMessage fprintFaults "base" emptyWorld sampleMessage).1.content r.filename
            = some (bodyContent sampleMessage)) ∧
        (sampleMessage.HasAttachments = true →
          (∀ a ∈ sampleMessage.GetAttachments,
            fprintFaults.writeFile (r.filename ++ ".d/" ++ a.GetFilename) = false) →
          ∀ a ∈ sampleMessage.GetAttachments,
            (processMessage fprintFaults "base" emptyWorld sampleMessage).1.fileExists
              (indexPath "base") (r.filename ++ ".d/" ++ a.GetFilename) = true)) :=
  ⟨by decide,
    (index_only_after_reservation fprintFaults "base" emptyWorld sampleMessage
      (by decide)).2.2 (by decide)⟩

/-! ### Attachment summary -/

theorem joinNames_go (rest : List Attachment) (acc : String) (h : 0 < acc.length) :
    joinNames rest acc =
      String.intercalate.go acc ";" (rest.map (fun a => a.GetFilename)) := by
  induction rest generalizing acc with
  | nil => rfl
  | cons a rest ih =>
    simp only [joinNames, List.map_cons, String.intercalate.go]
    rw [if_pos (by simpa using h)]
    apply ih
    simp only [String.length_append]
    omega

/-- The accumulator of lines 161-162 is the `;`-join whenever the first
filename is not empty. -/
theorem joinNames_eq_summary (a : Attachment) (rest : List Attachment)
    (h : a.GetFilename ≠ "") :
    joinNames (a :: rest) "" = attachmentSummary (a :: rest) := by
  have hlen : 0 < a.GetFilename.length := by
    rcases Nat.eq_zero_or_pos a.GetFilename.length with h0 | hpos
    · exfalso
      apply h
      apply String.ext
      exact List.eq_nil_of_length_eq_zero h0
    · exact hpos
  have hempty : ("" : String) ++ a.GetFilename = a.GetFilename := by
    apply String.ext; simp [String.data_append]
  simp only [joinNames, attachmentSummary, List.map_cons, String.intercalate]
  rw [if_neg (by decide), hempty]
  exact joinNames_go rest _ hlen

/-- For the attachments `["a.txt", "b.pdf"]` the `attachments` column is
`"a.txt;b.pdf"`, and it is empty for a message without attachments. -/
theorem attachment_summary_examples :
    (processMessage noFaults "base" emptyWorld sampleMessage).1.index.map
      (fun r => r.attachments) = ["a.txt;b.pdf"] ∧
    (processMessage noFaults "base" emptyWorld sampleMessage2).1.index.map
      (fun r => r.attachments) = [""] := by
  decide

/-- C6 (failing input): for the attachments `["", "b.pdf"]` the row holds
`"b.pdf"` in the `attachments` column, while the filenames joined with `;`
are `";b.pdf"`. -/
theorem attachment_summary_empty_first_name :
    (processMessage noFaults "base" emptyWorld unnamedAttachmentMessage).2 = none ∧
    (processMessage noFaults "base" emptyWorld unnamedAttachmentMessage).1.index.map
      (fun r => r.attachments) = ["b.pdf"] ∧
    attachmentSummary unnamedAttachmentMessage.GetAttachments = ";b.pdf" := by
  decide

/-! ### The index -/

theorem indexed_eq_true_iff (w : World) (id : String) :
    w.indexed id = true ↔ id ∈ w.ids := by
  simp only [World.indexed, World.ids, List.any_eq_true, List.mem_map, beq_iff_eq]

theorem indexed_eq_false_iff (w : World) (id : String) :
    w.indexed id = false ↔ id ∉ w.ids := by
  rw [← indexed_eq_true_iff]
  simp

theorem dbExecInsert_cases (env : Faults) (w : World) (r : IndexRecord) :
    (dbExecInsert env w r).1.dbValid = w.dbValid ∧
    (((dbExecInsert env w r).1.index = w.index ∧ (dbExecInsert env w r).2 ≠ none) ∨
      ((dbExecInsert env w r).2 = none ∧ w.indexed r.messageid = false ∧
        w.dbValid = true ∧ (dbExecInsert env w r).1.index = w.index ++ [r])) := by
  cases h : (dbExecInsert env w r).2 with
  | none =>
    obtain ⟨h1, h2, _, h4⟩ := dbExecInsert_ok h
    rw [h4]
    exact ⟨rfl, Or.inr ⟨rfl, h2, h1, rfl⟩⟩
  | some f =>
    have hne : (dbExecInsert env w r).2 ≠ none := by rw [h]; simp
    rw [dbExecInsert_index_of_fatal hne]
    exact ⟨rfl, Or.inl ⟨rfl, by simp⟩⟩

/-- Effect of one iteration on the index when the attachment filenames
are plain: nothing, or one appended row for the message, which was not in
the index; the database stays as usable as it was. -/
theorem processMessage_plain (env : Faults) (basedir : String) (w : World)
    (ii : Message) (hp : plainAttachments ii = true) :
    (processMessage env basedir w ii).1.dbValid = w.dbValid ∧
    ((processMessage env basedir w ii).1.index = w.index ∨
      (w.indexed ii.GetMessageId = false ∧ (processMessage env basedir w ii).2 = none ∧
        ∃ r, r.messageid = ii.GetMessageId ∧
          (processMessage env basedir w ii).1.index = w.index ++ [r])) := by
  unfold processMessage
  split
  · exact ⟨rfl, Or.inl rfl⟩
  · split
    · exact ⟨rfl, Or.inl rfl⟩
    · rename_i hq hidx
      rcases storeMessage_cases env basedir (w.emit (Event.queryRow ii.GetMessageId false)) ii
        with ⟨c, _, _, _, h4⟩ | ⟨_, h2⟩
      · obtain ⟨i1, i2, _⟩ := writtenWorld_plain env basedir
          (w.emit (Event.queryRow ii.GetMessageId false)) ii c hp
        obtain ⟨d1, d2⟩ := dbExecInsert_cases env
          (writtenWorld env basedir (w.emit (Event.queryRow ii.GetMessageId false)) ii c)
          (mkRecord ii (bodyPathOf basedir ii c) (attNamesOf ii))
        rw [h4]
        refine ⟨by rw [d1, i2]; rfl, ?_⟩
        rcases d2 with ⟨e1, _⟩ | ⟨e1, _, _, e4⟩
        · left; rw [e1, i1]; rfl
        · right
          refine ⟨by simpa using hidx, e1,
            mkRecord ii (bodyPathOf basedir ii c) (attNamesOf ii), rfl, ?_⟩
          rw [e4, i1]; rfl
      · rw [h2]; exact ⟨rfl, Or.inl rfl⟩

theorem processMessage_not_duplicateKey (env : Faults) (basedir : String) (w : World)
    (ii : Message) (hp : plainAttachments ii = true) (id : String) :
    (processMessage env basedir w ii).2 ≠ some (Fatal.duplicateKey id) := by
  unfold processMessage
  split
  · simp
  · split
    · simp
    · rename_i hq hidx
      rcases storeMessage_cases env basedir (w.emit (Event.queryRow ii.GetMessageId false)) ii
        with ⟨c, _, _, _, h4⟩ | ⟨_, h2⟩
      · obtain ⟨i1, _, _⟩ := writtenWorld_plain env basedir
          (w.emit (Event.queryRow ii.GetMessageId false)) ii c hp
        have hnew : (writtenWorld env basedir (w.emit (Event.queryRow ii.GetMessageId false))
            ii c).indexed (mkRecord ii (bodyPathOf basedir ii c) (attNamesOf ii)).messageid
            = false := by
          simp only [World.indexed, i1]
          simpa [World.indexed] using hidx
        rw [h4]
        unfold dbExecInsert
        split
        · simp
        · rw [if_neg (by simp [hnew])]
          split <;> simp
      · rw [h2]; simp

theorem syncLoop_cons (env : Faults) (basedir : String) (w : World) (ii : Message)
    (rest : List Message) :
    syncLoop env basedir w (ii :: rest) =
      if (processMessage env basedir w ii).2 = none then
        syncLoop env basedir (processMessage env basedir w ii).1 rest
      else processMessage env basedir w ii := by
  simp only [syncLoop]
  cases h : processMessage env basedir w ii with
  | mk w' o =>
    cases o with
    | none => simp
    | some f => simp

theorem syncLoop_invariant (env : Faults) (basedir : String) (w : World)
    (msgs : List Message) (h : w.ids.Nodup)
    (hp : ∀ ii ∈ msgs, plainAttachments ii = true) :
    (syncLoop env basedir w msgs).1.ids.Nodup ∧
    (∃ new, (syncLoop env basedir w msgs).1.index = w.index ++ new) ∧
    (syncLoop env basedir w msgs).1.dbValid = w.dbValid ∧
    (∀ id, (syncLoop env basedir w msgs).2 ≠ some (Fatal.duplicateKey id)) := by
  induction msgs generalizing w with
  | nil => exact ⟨h, ⟨[], by simp [syncLoop]⟩, rfl, fun id => by simp [syncLoop]⟩
  | cons ii rest ih =>
    rw [syncLoop_cons]
    obtain ⟨hdb, hstep⟩ := processMessage_plain env basedir w ii (hp ii (by simp))
    have hnd : (processMessage env basedir w ii).1.ids.Nodup := by
      rcases hstep with h1 | ⟨h1, _, r, hr, h2⟩
      · simp only [World.ids, h1]; exact h
      · simp only [World.ids, h2, List.map_append, List.map_cons, List.map_nil, hr]
        apply List.Nodup.append h (by simp)
        intro x hx1 hx2
        simp only [List.mem_singleton] at hx2
        subst hx2
        exact (indexed_eq_false_iff w _).1 h1 hx1
    have happ : ∃ new, (processMessage env basedir w ii).1.index = w.index ++ new := by
      rcases hstep with h1 | ⟨_, _, r, _, h2⟩
      · exact ⟨[], by simp [h1]⟩
      · exact ⟨[r], h2⟩
    split
    · obtain ⟨a1, ⟨new, a2⟩, a3, a4⟩ := ih (processMessage env basedir w ii).1 hnd
        (fun m hm => hp m (by simp [hm]))
      obtain ⟨new0, hnew0⟩ := happ
      exact ⟨a1, ⟨new0 ++ new, by rw [a2, hnew0, List.append_assoc]⟩, by rw [a3, hdb], a4⟩
    · exact ⟨hnd, happ, hdb,
        processMessage_not_duplicateKey env basedir w ii (hp ii (by simp))⟩

/-- C8 (counterexample): the attachment filename
`../../../index.sqlite.db` resolves to the database file; after the row
of `m1` was inserted, the iteration on the message with that attachment
writes the attachment data over the database, the insert fails, and the
row of `m1` is gone. -/
theorem index_destroyed_by_attachment :
    emptyWorld.ids.Nodup ∧
    (syncLoop noFaults "base" emptyWorld [sampleMessage]).1.ids = ["m1"] ∧
    (syncLoop noFaults "base" emptyWorld [sampleMessage]).1.dbValid = true ∧
    writeFilesOf ((syncLoop noFaults "base" emptyWorld
        [sampleMessage, indexOverwriteMessage]).1.log.drop
        (syncLoop noFaults "base" emptyWorld [sampleMessage]).1.log.length) =
      [("base/john.doe@example.co/20240102/20240102-030405.001.d/../../../index.sqlite.db",
        "PWNED")] ∧
    resolvePath
        "base/john.doe@example.co/20240102/20240102-030405.001.d/../../../index.sqlite.db" =
      indexPath "base" ∧
    (syncLoop noFaults "base" emptyWorld [sampleMessage, indexOverwriteMessage]).2 =
      some (Fatal.execError "m6") ∧
    (syncLoop noFaults "base" emptyWorld [sampleMessage, indexOverwriteMessage]).1.dbValid =
      false ∧
    (syncLoop noFaults "base" emptyWorld [sampleMessage, indexOverwriteMessage]).1.index =
      [] := by
  decide

/-- C8 (amended): for message sequences whose attachment filenames are
plain file names: from an index with pairwise distinct message ids, after
the loop (ended or aborted) the message ids of the index are pairwise
distinct, the rows present before are an unchanged prefix of the index,
and the loop never ends with the duplicate-key error of the insert (the
insert is never run on a message id that is present). -/
theorem index_unique (env : Faults) (basedir : String) (w : World) (msgs : List Message)
    (h : w.ids.Nodup) (hp : ∀ ii ∈ msgs, plainAttachments ii = true) :
    (syncLoop env basedir w msgs).1.ids.Nodup ∧
    (∃ new, (syncLoop env basedir w msgs).1.index = w.index ++ new) ∧
    (∀ id, (syncLoop env basedir w msgs).2 ≠ some (Fatal.duplicateKey id)) :=
  ⟨(syncLoop_invariant env basedir w msgs h hp).1,
    (syncLoop_invariant env basedir w msgs h hp).2.1,
    (syncLoop_invariant env basedir w msgs h hp).2.2.2⟩

theorem index_unique_witness :
    (emptyWorld.ids.Nodup ∧
      (syncLoop noFaults "base" emptyWorld
        [sampleMessage, sampleMessage2, sampleMessage]).1.ids = ["m1", "m2"] ∧
      (syncLoop noFaults "base" emptyWorld
        [sampleMessage, sampleMessage2, sampleMessage]).2 = none) ∧
    (syncLoop noFaults "base" emptyWorld
      [sampleMessage, sampleMessage2, sampleMessage]).1.ids.Nodup ∧
    (∃ new, (syncLoop noFaults "base" emptyWorld
      [sampleMessage, sampleMessage2, sampleMessage]).1.index = emptyWorld.index ++ new) ∧
    (∀ id, (syncLoop noFaults "base" emptyWorld
      [sampleMessage, sampleMessage2, sampleMessage]).2 ≠ some (Fatal.duplicateKey id)) :=
  ⟨by decide,
    index_unique noFaults "base" emptyWorld [sampleMessage, sampleMessage2, sampleMessage]
      (by decide) (by decide)⟩

/-! ### Idempotence -/

theorem indexed_of_index_append {w w' : World} {new : List IndexRecord}
    (h : w'.index = w.index ++ new) {id : String} (hid : w.indexed id = true) :
    w'.indexed id = true := by
  simp only [World.indexed, h, List.any_append, Bool.or_eq_true] at hid ⊢
  exact Or.inl hid

theorem syncLoop_plain (env : Faults) (basedir : String) (w : World)
    (msgs : List Message) (hp : ∀ ii ∈ msgs, plainAttachments ii = true) :
    (syncLoop env basedir w msgs).1.dbValid = w.dbValid ∧
    ∃ new, (syncLoop env basedir w msgs).1.index = w.index ++ new := by
  induction msgs generalizing w with
  | nil => exact ⟨rfl, [], by simp [syncLoop]⟩
  | cons ii rest ih =>
    rw [syncLoop_cons]
    obtain ⟨hdb, hstep⟩ := processMessage_plain env basedir w ii (hp ii (by simp))
    have happ : ∃ new, (processMessage env basedir w ii).1.index = w.index ++ new := by
      rcases hstep with h1 | ⟨_, _, r, _, h2⟩
      · exact ⟨[], by simp [h1]⟩
      · exact ⟨[r], h2⟩
    split
    · obtain ⟨a1, new, a2⟩ := ih (processMessage env basedir w ii).1
        (fun m hm => hp m (by simp [hm]))
      obtain ⟨new0, hnew0⟩ := happ
      exact ⟨by rw [a1, hdb], new0 ++ new, by rw [a2, hnew0, List.append_assoc]⟩
    · exact ⟨hdb, happ⟩

/-- After a run without fatal error over messages with plain attachment
names every message of the list is in the index, its query does not fail,
and the database is usable. -/
theorem syncLoop_all_indexed (env : Faults) (basedir : String) (w : World)
    (msgs : List Message) (hp : ∀ ii ∈ msgs, plainAttachments ii = true)
    (h : (syncLoop env basedir w msgs).2 = none) :
    ∀ ii ∈ msgs, env.queryRow ii.GetMessageId = false ∧
      (syncLoop env basedir w msgs).1.dbValid = true ∧
      (syncLoop env basedir w msgs).1.indexed ii.GetMessageId = true := by
  induction msgs generalizing w with
  | nil => intro ii hii; simp at hii
  | cons m rest ih =>
    rw [syncLoop_cons] at h ⊢
    by_cases hstep : (processMessage env basedir w m).2 = none
    · rw [if_pos hstep] at h ⊢
      obtain ⟨hq, hv⟩ := processMessage_ok_query hstep
      obtain ⟨hdb, hidx⟩ := processMessage_plain env basedir w m (hp m (by simp))
      obtain ⟨hdb2, new, hnew⟩ := syncLoop_plain env basedir
        (processMessage env basedir w m).1 rest (fun x hx => hp x (by simp [hx]))
      intro ii hii
      rcases List.mem_cons.1 hii with rfl | hrest
      · refine ⟨hq, by rw [hdb2, hdb]; exact hv, ?_⟩
        have hafter : (processMessage env basedir w ii).1.indexed ii.GetMessageId = true := by
          rcases hidx with h1 | ⟨_, _, r, hr, h2⟩
          · cases hi : w.indexed ii.GetMessageId with
            | true => simpa [World.indexed, h1] using hi
            | false =>
              obtain ⟨c, _, _, _, _, hres⟩ := processMessage_stored hi hstep
              have : ((processMessage env basedir w ii).1.index).length = w.index.length := by
                rw [h1]
              rw [hres] at this
              obtain ⟨i1, _, _⟩ := writtenWorld_plain env basedir
                (w.emit (Event.queryRow ii.GetMessageId false)) ii c (hp ii (by simp))
              simp only [i1, emit_index, List.length_append, List.length_cons,
                List.length_nil] at this
              omega
          · simp [World.indexed, h2, hr]
        exact indexed_of_index_append hnew hafter
      · exact ih _ (fun x hx => hp x (by simp [hx])) h ii hrest
    · rw [if_neg hstep] at h
      exact absurd h hstep

theorem syncLoop_all_skipped (env : Faults) (basedir : String) (w : World)
    (msgs : List Message)
    (h : ∀ ii ∈ msgs, env.queryRow ii.GetMessageId = false ∧ w.dbValid = true ∧
      w.indexed ii.GetMessageId = true) :
    syncLoop env basedir w msgs =
      (⟨w.files, w.index, w.dbValid,
        w.log ++ msgs.map (fun ii => Event.queryRow ii.GetMessageId true)⟩, none) := by
  induction msgs generalizing w with
  | nil => simp [syncLoop]
  | cons m rest ih =>
    obtain ⟨hq, hv, hidx⟩ := h m (by simp)
    rw [syncLoop_cons, processMessage_skip env basedir w m hq hv hidx]
    simp only [if_true]
    rw [ih _ (fun ii hii => by simpa using h ii (by simp [hii]))]
    simp

/-- C2 (counterexample): the second message carries the attachment
`../../../index.sqlite.db` whose data is a database with an empty
`mailidx` table. The first run ends without a fatal error and leaves only
the row of that message in the index; the second run over the same
messages does not find `m1`, creates a new body file for it and inserts a
row. -/
theorem second_run_inserts_after_index_replaced :
    (syncLoop dbImageEnv "base" emptyWorld [sampleMessage, indexReplaceMessage]).2 = none ∧
    (syncLoop dbImageEnv "base" emptyWorld [sampleMessage, indexReplaceMessage]).1.ids
      = ["m7"] ∧
    (syncLoop dbImageEnv "base"
      (syncLoop dbImageEnv "base" emptyWorld [sampleMessage, indexReplaceMessage]).1
      [sampleMessage, indexReplaceMessage]).2 = none ∧
    (syncLoop dbImageEnv "base"
      (syncLoop dbImageEnv "base" emptyWorld [sampleMessage, indexReplaceMessage]).1
      [sampleMessage, indexReplaceMessage]).1.ids = ["m7", "m1"] ∧
    createdOf ((syncLoop dbImageEnv "base"
      (syncLoop dbImageEnv "base" emptyWorld [sampleMessage, indexReplaceMessage]).1
      [sampleMessage, indexReplaceMessage]).1.log.drop
      (syncLoop dbImageEnv "base" emptyWorld
        [sampleMessage, indexReplaceMessage]).1.log.length) =
      ["base/john.doe@example.co/20240102/20240102-030405.002"] := by
  decide

/-- C2 (amended): for message lists whose attachment filenames are plain
file names: when a run of the loop ends without a fatal error, a second
run over the same list from the resulting state also ends without a fatal
error, its only operations are one query per message that finds the row
(every message is skipped), and the files and the index are the same as
after the first run. -/
theorem sync_idempotent (env : Faults) (basedir : String) (w : World) (msgs : List Message)
    (hp : ∀ ii ∈ msgs, plainAttachments ii = true)
    (h : (syncLoop env basedir w msgs).2 = none) :
    syncLoop env basedir (syncLoop env basedir w msgs).1 msgs =
      (⟨(syncLoop env basedir w msgs).1.files, (syncLoop env basedir w msgs).1.index,
        (syncLoop env basedir w msgs).1.dbValid,
        (syncLoop env basedir w msgs).1.log ++
          msgs.map (fun ii => Event.queryRow ii.GetMessageId true)⟩, none) :=
  syncLoop_all_skipped env basedir _ msgs (syncLoop_all_indexed env basedir w msgs hp h)

theorem sync_idempotent_witness :
    ((syncLoop noFaults "base" emptyWorld [sampleMessage, sampleMessage2]).2 = none ∧
      (syncLoop noFaults "base" emptyWorld [sampleMessage, sampleMessage2]).1.ids
        = ["m1", "m2"] ∧
      (syncLoop noFaults "base"
        (syncLoop noFaults "base" emptyWorld [sampleMessage, sampleMessage2]).1
        [sampleMessage, sampleMessage2]).1.ids = ["m1", "m2"] ∧
      (syncLoop noFaults "base"
        (syncLoop noFaults "base" emptyWorld [sampleMessage, sampleMessage2]).1
        [sampleMessage, sampleMessage2]).1.log.drop
        (syncLoop noFaults "base" emptyWorld [sampleMessage, sampleMessage2]).1.log.length =
        [Event.queryRow "m1" true, Event.queryRow "m2" true]) ∧
    syncLoop noFaults "base"
        (syncLoop noFaults "base" emptyWorld [sampleMessage, sampleMessage2]).1
        [sampleMessage, sampleMessage2] =
      (⟨(syncLoop noFaults "base" emptyWorld [sampleMessage, sampleMessage2]).1.files,
        (syncLoop noFaults "base" emptyWorld [sampleMessage, sampleMessage2]).1.index,
        (syncLoop noFaults "base" emptyWorld [sampleMessage, sampleMessage2]).1.dbValid,
        (syncLoop noFaults "base" emptyWorld [sampleMessage, sampleMessage2]).1.log ++
          [sampleMessage, sampleMessage2].map
            (fun ii => Event.queryRow ii.GetMessageId true)⟩, none) :=
  ⟨by decide,
    sync_idempotent noFaults "base" emptyWorld [sampleMessage, sampleMessage2] (by decide)
      (by decide)⟩

/-! ### Collision safety -/

theorem exists_two_free (p : Nat → Bool)
    (h : ((List.range 1000).filter p).length < 999) :
    ∃ a b, a < b ∧ b < 1000 ∧ p a = false ∧ p b = false := by
  have hlen := List.length_eq_length_filter_add (l := List.range 1000) p
  rw [List.length_range] at hlen
  have hsorted : List.Pairwise (fun x y => x < y)
      ((List.range 1000).filter (fun x => !p x)) :=
    List.Pairwise.filter _ (List.pairwise_lt_range 1000)
  have hmem : ∀ x ∈ (List.range 1000).filter (fun x => !p x), x < 1000 ∧ p x = false := by
    intro x hx
    rw [List.mem_filter] at hx
    exact ⟨List.mem_range.1 hx.1, by simpa using hx.2⟩
  match hl : (List.range 1000).filter (fun x => !p x), hsorted, hmem with
  | [], _, _ => rw [hl] at hlen; simp at hlen; omega
  | [x], _, _ => rw [hl] at hlen; simp at hlen; omega
  | x :: y :: rest, hs, hm =>
    have hxy : x < y := (List.pairwise_cons.1 hs).1 y (by simp)
    exact ⟨x, y, hxy, (hm y (by simp)).1, (hm x (by simp)).2, (hm y (by simp)).2⟩

theorem bodyPathOf_congr (basedir : String) {m1 m2 : Message}
    (hfrom : extractEmail m1.GetFrom = extractEmail m2.GetFrom)
    (hdate : m1.GetDate.Format20060102 = m2.GetDate.Format20060102)
    (hstamp : m1.GetDate.FormatStamp = m2.GetDate.FormatStamp) (c : Nat) :
    bodyPathOf basedir m2 c = bodyPathOf basedir m1 c := by
  simp only [bodyPathOf, messageDir, hfrom, hdate, hstamp]

theorem fileExists_of_files {w w' : World} (h : w'.files = w.files) (db : List String)
    (q : String) : w'.fileExists db q = w.fileExists db q := by
  simp only [World.fileExists, h]

theorem content_of_files {w w' : World} (h : w'.files = w.files) (q : String) :
    w'.content q = w.content q := by
  simp only [World.content, h]

/-- Body paths of the same directory and timestamp with another counter
are untouched by the iteration that stored at counter `c`, when the
attachment filenames are plain. -/
theorem writtenWorld_other_counter (env : Faults) (basedir : String) (w : World)
    (ii : Message) (hp : plainAttachments ii = true) {c j : Nat} (hc : c < 1000)
    (hj : j < 1000) (hne : c ≠ j) :
    (writtenWorld env basedir w ii c).fileExists (indexPath basedir) (bodyPathOf basedir ii j)
      = w.fileExists (indexPath basedir) (bodyPathOf basedir ii j) ∧
    (writtenWorld env basedir w ii c).content (bodyPathOf basedir ii j)
      = w.content (bodyPathOf basedir ii j) := by
  obtain ⟨_, _, _, p4⟩ := message_paths basedir ii
  obtain ⟨_, _, i3⟩ := writtenWorld_plain env basedir w ii c hp
  rw [(i3 j).1, (i3 j).2, bodyWorld_fileExists,
    bodyWorld_content_ne env basedir w ii c _ (p4 c j hc hj hne)]
  refine ⟨?_, rfl⟩
  rw [beq_false_of_ne (p4 c j hc hj hne)]
  simp

theorem emptyWorld_body_free (basedir : String) (ii : Message) (c : Nat) :
    emptyWorld.fileExists (indexPath basedir) (bodyPathOf basedir ii c) = false := by
  rw [fileExists_false_iff]
  exact ⟨(message_paths basedir ii).1 c, rfl⟩

/-- C5 (counterexample): the second message has the sender and the
timestamp of the first and the attachment filename
`../20240102-030405.000`, which resolves from its attachment directory to
the first message's body file: both rows are inserted, and the first body
file, which held `hello` after the first iteration, holds `PWNED` after
the second. -/
theorem first_body_overwritten_by_second_message :
    sampleMessage.GetMessageId ≠ firstBodyOverwriteMessage.GetMessageId ∧
    extractEmail sampleMessage.GetFrom = extractEmail firstBodyOverwriteMessage.GetFrom ∧
    sampleMessage.GetDate.FormatStamp = firstBodyOverwriteMessage.GetDate.FormatStamp ∧
    (syncLoop noFaults "base" emptyWorld [sampleMessage, firstBodyOverwriteMessage]).2
      = none ∧
    (syncLoop noFaults "base" emptyWorld
        [sampleMessage, firstBodyOverwriteMessage]).1.index.map
        (fun r => (r.messageid, r.filename)) =
      [("m1", "base/john.doe@example.co/20240102/20240102-030405.000"),
        ("m5", "base/john.doe@example.co/20240102/20240102-030405.001")] ∧
    (processMessage noFaults "base" emptyWorld sampleMessage).1.content
      "base/john.doe@example.co/20240102/20240102-030405.000" = some "hello" ∧
    resolvePath
        "base/john.doe@example.co/20240102/20240102-030405.001.d/../20240102-030405.000" =
      resolvePath "base/john.doe@example.co/20240102/20240102-030405.000" ∧
    (syncLoop noFaults "base" emptyWorld [sampleMessage, firstBodyOverwriteMessage]).1.content
      "base/john.doe@example.co/20240102/20240102-030405.000" = some "PWNED" := by
  decide

/-- C5 (amended): two messages with distinct ids that are not in the
index and whose attachment filenames are plain file names, with the same
extracted sender address, date and timestamp, processed one after the
other from a state with a usable database and fewer than 999 of the 1000
candidate body paths taken, with no fault of the database for them and
none of the exclusive creation: both iterations end without a fatal
error; the two body files are created at paths with the same directory and
timestamp and distinct three-character counters `c1 < c2`, which resolve
to different files; the content of the first body file after the second
iteration is what the first iteration left; and the index gains exactly
one row per message, each with its own path. -/
theorem collision_safety (env : Faults) (basedir : String) (w : World) (m1 m2 : Message)
    (hid : m1.GetMessageId ≠ m2.GetMessageId)
    (hnew1 : w.indexed m1.GetMessageId = false) (hnew2 : w.indexed m2.GetMessageId = false)
    (hv : w.dbValid = true)
    (hp1 : plainAttachments m1 = true) (hp2 : plainAttachments m2 = true)
    (hfrom : extractEmail m1.GetFrom = extractEmail m2.GetFrom)
    (hdate : m1.GetDate.Format20060102 = m2.GetDate.Format20060102)
    (hstamp : m1.GetDate.FormatStamp = m2.GetDate.FormatStamp)
    (hroom : ((List.range 1000).filter
      (fun c => w.fileExists (indexPath basedir) (bodyPathOf basedir m1 c))).length < 999)
    (hq1 : env.queryRow m1.GetMessageId = false) (hq2 : env.queryRow m2.GetMessageId = false)
    (hex1 : env.exec m1.GetMessageId = false) (hex2 : env.exec m2.GetMessageId = false)
    (hopen : ∀ c, c < 1000 → env.openFile (bodyPathOf basedir m1 c) = false) :
    ∃ c1 c2 r1 r2, c1 < c2 ∧ c2 < 1000 ∧
      (syncLoop env basedir w [m1, m2]).2 = none ∧
      (syncLoop env basedir w [m1, m2]).1.index = w.index ++ [r1, r2] ∧
      r1.messageid = m1.GetMessageId ∧ r2.messageid = m2.GetMessageId ∧
      r1.filename = messageDir basedir m1 ++ "/" ++ m1.GetDate.FormatStamp ++ "." ++
        zeroPad 3 c1 ∧
      r2.filename = messageDir basedir m1 ++ "/" ++ m1.GetDate.FormatStamp ++ "." ++
        zeroPad 3 c2 ∧
      (zeroPad 3 c1).length = 3 ∧ (zeroPad 3 c2).length = 3 ∧
      r1.filename ≠ r2.filename ∧
      resolvePath r1.filename ≠ resolvePath r2.filename ∧
      w.fileExists (indexPath basedir) r1.filename = false ∧
      w.fileExists (indexPath basedir) r2.filename = false ∧
      (syncLoop env basedir w [m1, m2]).1.fileExists (indexPath basedir) r1.filename = true ∧
      (syncLoop env basedir w [m1, m2]).1.fileExists (indexPath basedir) r2.filename = true ∧
      (syncLoop env basedir w [m1, m2]).1.content r1.filename =
        (processMessage env basedir w m1).1.content r1.filename := by
  have hcr : ∀ (w' : World) (c : Nat), c < 1000 →
      ((osOpenFileExcl env (indexPath basedir) w' (bodyPathOf basedir m1 c)).1 = true ↔
        w'.fileExists (indexPath basedir) (bodyPathOf basedir m1 c) = false) := by
    intro w' c hc
    rw [osOpenFileExcl_fst]
    simp [hopen c hc]
  obtain ⟨_, _, _, p4⟩ := message_paths basedir m1
  obtain ⟨a, b, hab, hb, hfa, hfb⟩ := exists_two_free _ hroom
  -- first iteration
  obtain ⟨c1, hc1, _, hfresh1, hleast1, hres1⟩ :=
    @processMessage_store_ok env basedir w m1 hnew1 hv hp1 hq1 hex1
      ⟨a, by omega, (hcr w a (by omega)).2 hfa⟩
  have hc1a : c1 ≤ a := by
    by_contra hlt
    have := hleast1 a (by omega)
    rw [(hcr w a (by omega)).2 hfa] at this
    cases this
  have hok1 : (processMessage env basedir w m1).2 = none := by rw [hres1]
  have hidx1 : (processMessage env basedir w m1).1.index =
      w.index ++ [mkRecord m1 (bodyPathOf basedir m1 c1) (attNamesOf m1)] := by rw [hres1]
  have hv1 : (processMessage env basedir w m1).1.dbValid = true := by rw [hres1]
  have hfiles1 : (processMessage env basedir w m1).1.files =
      (writtenWorld env basedir (w.emit (Event.queryRow m1.GetMessageId false)) m1 c1).files := by
    rw [hres1]
  have hnew2' : (processMessage env basedir w m1).1.indexed m2.GetMessageId = false := by
    simp only [World.indexed, hidx1, List.any_append, List.any_cons, List.any_nil,
      Bool.or_false, Bool.or_eq_false_iff]
    exact ⟨hnew2, by simpa [mkRecord] using hid⟩
  have hex_other : ∀ j, j < 1000 → j ≠ c1 →
      (processMessage env basedir w m1).1.fileExists (indexPath basedir)
          (bodyPathOf basedir m1 j)
        = w.fileExists (indexPath basedir) (bodyPathOf basedir m1 j) := by
    intro j hj hne
    rw [fileExists_of_files hfiles1]
    have := (writtenWorld_other_counter env basedir
      (w.emit (Event.queryRow m1.GetMessageId false)) m1 hp1 hc1 hj (Ne.symm hne)).1
    simpa using this
  have hex_c1 : (processMessage env basedir w m1).1.fileExists (indexPath basedir)
      (bodyPathOf basedir m1 c1) = true := by
    rw [fileExists_of_files hfiles1]
    exact writtenWorld_fileExists_body env basedir _ m1 c1
  -- second iteration
  have hfree2 : ∃ c, c < 1000 ∧ (osOpenFileExcl env (indexPath basedir)
      (processMessage env basedir w m1).1 (bodyPathOf basedir m2 c)).1 = true := by
    refine ⟨b, hb, ?_⟩
    rw [bodyPathOf_congr basedir hfrom hdate hstamp, hcr _ b hb, hex_other b hb (by omega)]
    exact hfb
  obtain ⟨c2, hc2, _, hfresh2, hleast2, hres2⟩ :=
    @processMessage_store_ok env basedir _ m2 hnew2' hv1 hp2 hq2 hex2 hfree2
  rw [bodyPathOf_congr basedir hfrom hdate hstamp] at hfresh2
  have hne12 : c2 ≠ c1 := by
    intro h
    rw [h, hex_c1] at hfresh2
    cases hfresh2
  have hfresh2w : w.fileExists (indexPath basedir) (bodyPathOf basedir m1 c2) = false := by
    rw [← hex_other c2 hc2 hne12]; exact hfresh2
  have hlt : c1 < c2 := by
    by_contra hge
    have hlt' : c2 < c1 := by omega
    have := hleast1 c2 hlt'
    rw [(hcr w c2 hc2).2 hfresh2w] at this
    cases this
  have hloop : syncLoop env basedir w [m1, m2] =
      processMessage env basedir (processMessage env basedir w m1).1 m2 := by
    have hok2 : (processMessage env basedir (processMessage env basedir w m1).1 m2).2 = none := by
      rw [hres2]
    rw [syncLoop_cons, if_pos hok1, syncLoop_cons, if_pos hok2]
    simp only [syncLoop]
    exact Prod.ext rfl hok2.symm
  have hfiles2 : (syncLoop env basedir w [m1, m2]).1.files =
      (writtenWorld env basedir ((processMessage env basedir w m1).1.emit
        (Event.queryRow m2.GetMessageId false)) m2 c2).files := by
    rw [hloop, hres2]
  have hp2' : bodyPathOf basedir m2 c2 = bodyPathOf basedir m1 c2 :=
    bodyPathOf_congr basedir hfrom hdate hstamp c2
  have hp1' : bodyPathOf basedir m1 c1 = bodyPathOf basedir m2 c1 :=
    (bodyPathOf_congr basedir hfrom hdate hstamp c1).symm
  have hres12 : resolvePath (bodyPathOf basedir m1 c1) ≠
      resolvePath (bodyPathOf basedir m1 c2) := p4 c1 c2 hc1 hc2 (by omega)
  refine ⟨c1, c2, mkRecord m1 (bodyPathOf basedir m1 c1) (attNamesOf m1),
    mkRecord m2 (bodyPathOf basedir m2 c2) (attNamesOf m2), hlt, hc2, ?_, ?_, rfl, rfl,
    rfl, ?_, zeroPad_three_length hc1, zeroPad_three_length hc2, ?_, ?_, hfresh1, ?_, ?_,
    ?_, ?_⟩
  · rw [hloop, hres2]
  · rw [hloop, hres2, hidx1]; simp
  · simp only [mkRecord, hp2']; rfl
  · simp only [mkRecord, hp2']
    intro h
    exact hres12 (by rw [h])
  · simp only [mkRecord, hp2']
    exact hres12
  · simp only [mkRecord, hp2']; exact hfresh2w
  · rw [fileExists_of_files hfiles2]
    apply writtenWorld_fileExists_mono
    simpa [mkRecord] using hex_c1
  · rw [fileExists_of_files hfiles2]
    exact writtenWorld_fileExists_body env basedir _ m2 c2
  · rw [content_of_files hfiles2]
    simp only [mkRecord]
    rw [hp1']
    have := (writtenWorld_other_counter env basedir
      ((processMessage env basedir w m1).1.emit (Event.queryRow m2.GetMessageId false))
      m2 hp2 hc2 hc1 hne12).2
    simpa using this

theorem collision_safety_witness :
    ((syncLoop noFaults "base" emptyWorld [sampleMessage, sampleMessage2]).1.index.map
        (fun r => (r.messageid, r.filename)) =
      [("m1", "base/john.doe@example.co/20240102/20240102-030405.000"),
        ("m2", "base/john.doe@example.co/20240102/20240102-030405.001")] ∧
      (syncLoop noFaults "base" emptyWorld [sampleMessage, sampleMessage2]).1.content
        "base/john.doe@example.co/20240102/20240102-030405.000" = some "hello" ∧
      (syncLoop noFaults "base" emptyWorld [sampleMessage, sampleMessage2]).1.content
        "base/john.doe@example.co/20240102/20240102-030405.001" = some "<p>two</p>") ∧
    ∃ c1 c2 r1 r2, c1 < c2 ∧ c2 < 1000 ∧
      (syncLoop noFaults "base" emptyWorld [sampleMessage, sampleMessage2]).2 = none ∧
      (syncLoop noFaults "base" emptyWorld [sampleMessage, sampleMessage2]).1.index
        = emptyWorld.index ++ [r1, r2] ∧
      r1.messageid = sampleMessage.GetMessageId ∧
      r2.messageid = sampleMessage2.GetMessageId ∧
      r1.filename = messageDir "base" sampleMessage ++ "/" ++
        sampleMessage.GetDate.FormatStamp ++ "." ++ zeroPad 3 c1 ∧
      r2.filename = messageDir "base" sampleMessage ++ "/" ++
        sampleMessage.GetDate.FormatStamp ++ "." ++ zeroPad 3 c2 ∧
      (zeroPad 3 c1).length = 3 ∧ (zeroPad 3 c2).length = 3 ∧
      r1.filename ≠ r2.filename ∧
      resolvePath r1.filename ≠ resolvePath r2.filename ∧
      emptyWorld.fileExists (indexPath "base") r1.filename = false ∧
      emptyWorld.fileExists (indexPath "base") r2.filename = false ∧
      (syncLoop noFaults "base" emptyWorld [sampleMessage, sampleMessage2]).1.fileExists
        (indexPath "base") r1.filename = true ∧
      (syncLoop noFaults "base" emptyWorld [sampleMessage, sampleMessage2]).1.fileExists
        (indexPath "base") r2.filename = true ∧
      (syncLoop noFaults "base" emptyWorld [sampleMessage, sampleMessage2]).1.content
          r1.filename =
        (processMessage noFaults "base" emptyWorld sampleMessage).1.content r1.filename :=
  ⟨by decide,
    collision_safety noFaults "base" emptyWorld sampleMessage sampleMessage2
      (by decide) (by decide) (by decide) (by decide) (by decide) (by decide) (by decide)
      (by decide) (by decide)
      (by simp [emptyWorld_body_free])
      (by decide) (by decide) (by decide) (by decide) (fun _ _ => rfl)⟩

/-! ### Further evaluations of `extractEmail` -/

theorem extractEmail_examples :
    extractEmail "a@b.cdefghij x@y.zz" = "a@b.cdefg" ∧
    extractEmail "x a@b.c.dd.e" = "a@b.c.dd" ∧
    extractEmail "a@@b.c, c+d%e@f-g.hi.jk7" = "c+d%e@f-g.hi.jk" ∧
    extractEmail "" = "" := by
  decide

end Mailwatcher
